import Mathlib

/-! # cyclus: the Transaction lifecycle (`src/src/transaction.cc`)

A shallow embedding of `cyclus::Transaction`: construction, cloning, matching of an
offer with a request, the setters, and settlement (`ApproveTransfer`) with its ledger
records.  The exchange context (`ExchangeContext`, requests, bids, portfolios), of which
only the test suite is at hand, follows the spec.

Conventions of the embedding

* A raw pointer `Model*` is an `Option Nat`: `none` is `NULL`, `some a` is the object at
  address `a`.  A `Resource::Ptr` (shared pointer) is an `Option Nat` into a `Heap`.
* A `double` is only stored, copied and compared by this code, never computed with; it
  is carried as its IEEE 754 bit pattern, a `Nat`, and `operator==` on doubles is
  `Double.eq`, comparison by value.
* An `int` is an `Int` in the range `INT_MIN .. INT_MAX`.  The increment
  `next_trans_id_++` wraps around at `INT_MAX` to `INT_MIN` (`wrapInt`), as the compiled
  code does on a two's complement machine.
* `trans_id_` is not written by the constructor, so it is an `Option Int`: `none` is the
  indeterminate value of a member that was never assigned.
* A call that can throw returns its outcome together with the state it leaves behind, so
  that "the state is unchanged on failure" is a statement about the model.
-/

namespace cyclus

/-- The `TransType` tag of transaction.h: a transaction is an offer or a request. -/
inductive TransType where
  | OFFER
  | REQUEST
  deriving DecidableEq, Repr

/-- A `double`, carried as its bit pattern. -/
abbrev Double := Nat

/-- Whether the double with bit pattern `d` is a NaN: the exponent bits are all 1 and the
fraction is not 0, that is, the pattern without its sign bit is above that of
infinity. -/
def Double.isNaN (d : Double) : Bool :=
  decide (0x7FF0000000000000 < d % 0x8000000000000000)

/-- Whether the double with bit pattern `d` is a zero, `+0.0` or `-0.0`. -/
def Double.isZero (d : Double) : Bool :=
  decide (d % 0x8000000000000000 = 0)

/-- The comparison `a == b` of two doubles, by value: a NaN is equal to nothing, not even
to itself; the two zeros are equal; any other two doubles are equal exactly when their 64
bits are the same. -/
def Double.eq (a b : Double) : Bool :=
  !Double.isNaN a && !Double.isNaN b
    && (decide (a % 0x10000000000000000 = b % 0x10000000000000000)
        || (Double.isZero a && Double.isZero b))

/-- A `Model*`: `none` is `NULL`. -/
abbrev ModelPtr := Option Nat

/-- A `Resource::Ptr`: `none` is the empty shared pointer, `some a` points to cell `a`
of the resource heap. -/
abbrev ResourcePtr := Option Nat

/-- The observable state of one resource object. -/
abbrev ResourceState := Nat

/-- The resource objects allocated so far; an address is an index of this list. -/
abbrev Heap := List ResourceState

/-- What a call can raise.  `ValueError` is the exception of error.h thrown by
`MatchWith`; `External e` is an exception thrown by a collaborator (a `Model`);
`NullDeref` stands for a call through a `NULL` pointer or on an object that does not
exist. -/
inductive Exn where
  | ValueError (msg : String)
  | External (e : Nat)
  | NullDeref
  deriving DecidableEq, Repr

/-- The largest value of a C++ `int` (32 bits). -/
def INT_MAX : Int := 2147483647

/-- The smallest value of a C++ `int` (32 bits). -/
def INT_MIN : Int := -2147483648

/-- The `int` that holds the result `x` of an `int` operation: `x` itself when it is in
`INT_MIN .. INT_MAX`, and otherwise `x` reduced modulo `2^32` into that range (two's
complement wrap-around). -/
def wrapInt (x : Int) : Int :=
  (x + 2147483648) % 4294967296 - 2147483648

/-- The data members of `cyclus::Transaction`. -/
structure Transaction where
  type_ : TransType
  supplier_ : ModelPtr
  requester_ : ModelPtr
  resource_ : ResourcePtr
  commod_ : String
  price_ : Double
  minfrac_ : Double
  trans_id_ : Option Int
  deriving DecidableEq, Repr

/-- Modelled from the spec: `Resource::Clone` (resource.h is not part of the sources at
hand).  "A clone operation producing an independent copy": a new object is allocated,
holding a copy of the state of the object at `r`; the new address is returned. -/
def Resource.Clone (h : Heap) (r : Nat) : Nat × Heap :=
  (h.length, h ++ [h.getD r 0])

/-- A later mutation of the resource object at address `r`. -/
def Resource.mutate (h : Heap) (r : Nat) (v : ResourceState) : Heap :=
  h.set r v

/-- The accessor `Transaction::supplier()`. -/
def Transaction.supplier (t : Transaction) : ModelPtr := t.supplier_

/-- The accessor `Transaction::requester()`. -/
def Transaction.requester (t : Transaction) : ModelPtr := t.requester_

/-- The accessor `Transaction::commod()`. -/
def Transaction.commod (t : Transaction) : String := t.commod_

/-- The accessor `Transaction::IsOffer()`. -/
def Transaction.IsOffer (t : Transaction) : Bool := t.type_ = TransType.OFFER

/-- The accessor `Transaction::price()`. -/
def Transaction.price (t : Transaction) : Double := t.price_

/-- The accessor `Transaction::resource()`. -/
def Transaction.resource (t : Transaction) : ResourcePtr := t.resource_

/-- The accessor `Transaction::Minfrac()`. -/
def Transaction.Minfrac (t : Transaction) : Double := t.minfrac_

/-- The setter `Transaction::SetCommod`. -/
def Transaction.SetCommod (t : Transaction) (new_commod : String) : Transaction :=
  { t with commod_ := new_commod }

/-- The setter `Transaction::SetPrice`. -/
def Transaction.SetPrice (t : Transaction) (new_price : Double) : Transaction :=
  { t with price_ := new_price }

/-- The setter `Transaction::SetMinFrac`. -/
def Transaction.SetMinFrac (t : Transaction) (new_minfrac : Double) : Transaction :=
  { t with minfrac_ := new_minfrac }

/-- The setter `Transaction::SetResource`: a non-null argument is cloned and the clone is stored; a
null argument leaves the transaction as it is. -/
def Transaction.SetResource (t : Transaction) (h : Heap) (new_resource : ResourcePtr) :
    Transaction × Heap :=
  match new_resource with
  | some r =>
    let c := Resource.Clone h r
    ({ t with resource_ := some c.1 }, c.2)
  | none => (t, h)

/-- The constructor `Transaction::Transaction(creator, type, res, price, minfrac)`.
`price_` and `minfrac_` come from the initialiser list, `resource_` and `commod_` are
default-constructed (empty), `trans_id_` is left unassigned; then the body runs. -/
def Transaction.ctor (h : Heap) (creator : ModelPtr) (type : TransType) (res : ResourcePtr)
    (price minfrac : Double) : Transaction × Heap :=
  let t0 : Transaction :=
    { type_ := type, supplier_ := none, requester_ := none, resource_ := none,
      commod_ := "", price_ := price, minfrac_ := minfrac, trans_id_ := none }
  let r := t0.SetResource h res
  let t1 := { r.1 with supplier_ := none }
  let t2 := { t1 with requester_ := none }
  if type = TransType.OFFER then
    ({ t2 with supplier_ := creator }, r.2)
  else
    ({ t2 with requester_ := creator }, r.2)

/-- The method `Transaction::Clone`: copy-construct (every member is copied, the resource pointer
included), then `SetResource(resource_)` on the copy. -/
def Transaction.Clone (t : Transaction) (h : Heap) : Transaction × Heap :=
  let trans : Transaction := t
  trans.SetResource h t.resource_

/-- The state `MatchWith` reads and writes: the receiver, the argument, and the static
counter `Transaction::next_trans_id_`. -/
structure MatchState where
  self : Transaction
  other : Transaction
  next_trans_id_ : Int
  deriving DecidableEq, Repr

/-- The message of the `ValueError` thrown by `MatchWith` (spelled as in the source). -/
def incompatibleMsg : String := "Cannot match incompatible transactino types."

/-- The method `Transaction::MatchWith(Transaction& other)` on two distinct objects. -/
def Transaction.MatchWith (s : MatchState) : Except Exn Unit × MatchState :=
  if s.other.type_ = s.self.type_ then
    (.error (.ValueError incompatibleMsg), s)
  else
    let s1 : MatchState :=
      if s.self.type_ = TransType.OFFER then
        let s' := { s with self := { s.self with requester_ := s.other.requester } }
        { s' with other := { s'.other with supplier_ := s'.self.supplier } }
      else
        let s' := { s with self := { s.self with supplier_ := s.other.supplier } }
        { s' with other := { s'.other with requester_ := s'.self.requester } }
    let s2 : MatchState :=
      { s1 with self := { s1.self with trans_id_ := some s1.next_trans_id_ },
                next_trans_id_ := wrapInt (s1.next_trans_id_ + 1) }
    (.ok (), { s2 with other := { s2.other with trans_id_ := s2.self.trans_id_ } })

/-- The initial value of the static `Transaction::next_trans_id_`. -/
def initial_next_trans_id_ : Int := 1

/-! ## Settlement: `ApproveTransfer` and the ledger -/

/-- A value given to `AddVal`.  `indeterminate` is a `trans_id_` that was never
assigned. -/
inductive Val where
  | int (i : Int)
  | str (s : String)
  | dbl (d : Double)
  | indeterminate
  deriving DecidableEq, Repr

/-- One ledger record: `NewEvent(table)->AddVal(field, value)...->Record()`. -/
structure Event where
  table : String
  vals : List (String × Val)
  deriving DecidableEq, Repr

/-- What `ApproveTransfer` does to the outside world, in the order it does it: the call
of the supplier's `RemoveResource`, a record written to the ledger of context `ctx`, the
call of the requester's `AddResource`. -/
inductive Action where
  | RemoveResource (supplier : Nat) (t : Transaction)
  | Record (ctx : Nat) (e : Event)
  | AddResource (requester : Nat) (t : Transaction) (manifest : List Nat)
  deriving DecidableEq, Repr

/-- Modelled from the spec: the collaborators of section 6, whose code (model.h,
context.h, market_model.h, resource.h) is not part of the sources at hand.  They are
parameters of the embedding: `RemoveResource` and `AddResource` of an agent return or
throw, `id` is `Model::id()` (a market is a model), `context` is `Model::context()`,
`time` is `Context::time()`, `MarketForCommod` is `MarketModel::MarketForCommod`, and
`resourceId` is `Resource::id()`. -/
structure Env where
  RemoveResource : Nat → Transaction → Except Exn (List Nat)
  AddResource : Nat → Transaction → List Nat → Except Exn Unit
  id : Nat → Int
  context : Nat → Nat
  time : Nat → Int
  MarketForCommod : String → Nat
  resourceId : Nat → Int

/-- The value recorded for `trans_id_`. -/
def Val.ofTransId : Option Int → Val
  | some k => Val.int k
  | none => Val.indeterminate

/-- The accessor `Transaction::market()`. -/
def Transaction.market (env : Env) (t : Transaction) : Nat :=
  env.MarketForCommod t.commod_

/-- The method `Transaction::AddTransToTable`: one "Transactions" record in the supplier's
context.  Nothing is recorded when `supplier_` or `requester_` is `NULL`. -/
def Transaction.AddTransToTable (env : Env) (t : Transaction) (tr : List Action) :
    Except Exn Unit × List Action :=
  match t.supplier_, t.requester_ with
  | some s, some q =>
    let ctx := env.context s
    (.ok (), tr ++ [Action.Record ctx
      { table := "Transactions",
        vals := [("ID", Val.ofTransId t.trans_id_),
                 ("SenderID", Val.int (env.id s)),
                 ("ReceiverID", Val.int (env.id q)),
                 ("MarketID", Val.int (env.id (t.market env))),
                 ("Commodity", Val.str t.commod),
                 ("Price", Val.dbl t.price_),
                 ("Time", Val.int (env.time (env.context s)))] }])
  | _, _ => (.error Exn.NullDeref, tr)

/-- The method `Transaction::AddResourceToTable(transPos, r)`: one "TransactedResources" record in
the supplier's context. -/
def Transaction.AddResourceToTable (env : Env) (t : Transaction) (transPos : Int) (r : Nat)
    (tr : List Action) : Except Exn Unit × List Action :=
  match t.supplier_ with
  | some s =>
    let ctx := env.context s
    (.ok (), tr ++ [Action.Record ctx
      { table := "TransactedResources",
        vals := [("TransactionID", Val.ofTransId t.trans_id_),
                 ("Position", Val.int transPos),
                 ("ResourceID", Val.int (env.resourceId r))] }])
  | none => (.error Exn.NullDeref, tr)

/-- The loop `for (pos = 0; pos < nResources; pos++) AddResourceToTable(pos + 1,
manifest.at(pos))` of `ApproveTransfer`, entered at position `pos` with `rest` the
entries of the manifest from `pos` on. -/
def Transaction.recordManifest (env : Env) (t : Transaction) :
    Int → List Nat → List Action → Except Exn Unit × List Action
  | _, [], tr => (.ok (), tr)
  | pos, r :: rest, tr =>
    match t.AddResourceToTable env (pos + 1) r tr with
    | (.ok (), tr1) => Transaction.recordManifest env t (pos + 1) rest tr1
    | (.error e, tr1) => (.error e, tr1)

/-- The method `Transaction::ApproveTransfer`, run after the actions `tr`.  The closing `CLOG` line
writes to the log stream only and is left out. -/
def Transaction.ApproveTransfer (env : Env) (t : Transaction) (tr : List Action) :
    Except Exn Unit × List Action :=
  match t.supplier_ with
  | none => (.error Exn.NullDeref, tr)
  | some s =>
    let tr1 := tr ++ [Action.RemoveResource s t]
    match env.RemoveResource s t with
    | .error e => (.error e, tr1)
    | .ok manifest =>
      match t.AddTransToTable env tr1 with
      | (.error e, tr2) => (.error e, tr2)
      | (.ok (), tr2) =>
        match t.recordManifest env 0 manifest tr2 with
        | (.error e, tr3) => (.error e, tr3)
        | (.ok (), tr3) =>
          match t.requester_ with
          | none => (.error Exn.NullDeref, tr3)
          | some q => (env.AddResource q t manifest, tr3 ++ [Action.AddResource q t manifest])

/-- The ledger records among a sequence of actions, in order. -/
def ledger : List Action → List (Nat × Event)
  | [] => []
  | Action.Record ctx e :: tr => (ctx, e) :: ledger tr
  | _ :: tr => ledger tr

/-- The `AddResource` calls among a sequence of actions, in order. -/
def addResourceCalls : List Action → List (Nat × Transaction × List Nat)
  | [] => []
  | Action.AddResource q t m :: tr => (q, t, m) :: addResourceCalls tr
  | _ :: tr => addResourceCalls tr

/-- A collaborator environment used to evaluate settlement on concrete inputs: agent 1
gives up the resources 10 and 11 for any transaction, every other agent refuses with
exception 3; `AddResource` accepts; the id of an object is its address plus 100. -/
def sampleEnv : Env :=
  { RemoveResource := fun s _ => if s = 1 then .ok [10, 11] else .error (Exn.External 3),
    AddResource := fun _ _ _ => .ok (),
    id := fun a => (a : Int) + 100,
    context := fun _ => 0,
    time := fun _ => 7,
    MarketForCommod := fun _ => 50,
    resourceId := fun r => (r : Int) + 1000 }

/-- A matched transaction used to evaluate settlement on concrete inputs: supplier 1,
requester 2, id 4. -/
def sampleMatched : Transaction :=
  { type_ := TransType.OFFER, supplier_ := some 1, requester_ := some 2, resource_ := none,
    commod_ := "fuel", price_ := 5, minfrac_ := 0, trans_id_ := some 4 }

/-- A call of one of the four setters of a transaction. -/
inductive SetterCall where
  | SetPrice (new_price : Double)
  | SetMinFrac (new_minfrac : Double)
  | SetCommod (new_commod : String)
  | SetResource (new_resource : ResourcePtr)
  deriving DecidableEq, Repr

/-- One setter call on `t`, with the resource heap it leaves. -/
def Transaction.applySetter (t : Transaction) (h : Heap) : SetterCall → Transaction × Heap
  | SetterCall.SetPrice p => (t.SetPrice p, h)
  | SetterCall.SetMinFrac m => (t.SetMinFrac m, h)
  | SetterCall.SetCommod c => (t.SetCommod c, h)
  | SetterCall.SetResource r => t.SetResource h r

/-- The statements `t.ApproveTransfer(); t.Set...(x);` in sequence: the setter runs when
`ApproveTransfer` has returned, on the same `t` (`ApproveTransfer` writes no member of
it); an exception of `ApproveTransfer` ends the sequence. -/
def Transaction.settleThenSet (env : Env) (t : Transaction) (h : Heap) (tr : List Action)
    (c : SetterCall) : Except Exn (Transaction × Heap) × List Action :=
  match t.ApproveTransfer env tr with
  | (.ok (), tr2) => (.ok (t.applySetter h c), tr2)
  | (.error e, tr2) => (.error e, tr2)

/-- The claim "the mutable fields are frozen after settlement": whenever a setter call
follows a completed `ApproveTransfer` on `t`, it leaves `price()`, `Minfrac()`,
`commod()` and `resource()` of `t` at their values at settlement. -/
def FrozenAfterSettlement (env : Env) (t : Transaction) (h : Heap) (tr : List Action) : Prop :=
  ∀ (c : SetterCall) (t2 : Transaction) (h2 : Heap),
    (t.settleThenSet env h tr c).1 = .ok (t2, h2) →
      t2.price = t.price ∧ t2.Minfrac = t.Minfrac ∧ t2.commod = t.commod
        ∧ t2.resource = t.resource

/-! ## The process: all transaction objects and the static counter -/

/-- The transaction objects that exist (an object is named by its index), the resource
heap, and the static `Transaction::next_trans_id_`. -/
structure World where
  objs : List Transaction
  heap : Heap
  next_trans_id_ : Int
  deriving DecidableEq, Repr

/-- The state at process start: no transaction yet, the counter at 1. -/
def World.initial : World :=
  { objs := [], heap := [], next_trans_id_ := initial_next_trans_id_ }

/-- A call made by the host program. -/
inductive Call where
  | New (creator : ModelPtr) (type : TransType) (res : ResourcePtr) (price minfrac : Double)
  | Clone (i : Nat)
  | MatchWith (i j : Nat)
  | SetCommod (i : Nat) (new_commod : String)
  | SetPrice (i : Nat) (new_price : Double)
  | SetResource (i : Nat) (new_resource : ResourcePtr)
  | SetMinFrac (i : Nat) (new_minfrac : Double)
  deriving DecidableEq, Repr

/-- The call `objs[i].MatchWith(objs[j])`.  When `i = j` the two references are one object: its
type equals itself, the call throws before any write, and nothing changes. -/
def World.MatchWith (w : World) (i j : Nat) : Except Exn Unit × World :=
  match w.objs[i]?, w.objs[j]? with
  | some a, some b =>
    let r := Transaction.MatchWith { self := a, other := b, next_trans_id_ := w.next_trans_id_ }
    (r.1, { w with objs := (w.objs.set i r.2.self).set j r.2.other,
                   next_trans_id_ := r.2.next_trans_id_ })
  | _, _ => (.error Exn.NullDeref, w)

/-- Applies a setter to object `i`. -/
def World.update (w : World) (i : Nat) (f : Transaction → Transaction) :
    Except Exn Unit × World :=
  match w.objs[i]? with
  | some t => (.ok (), { w with objs := w.objs.set i (f t) })
  | none => (.error Exn.NullDeref, w)

/-- One call of the host program. -/
def World.step (w : World) : Call → Except Exn Unit × World
  | Call.New creator type res price minfrac =>
    let r := Transaction.ctor w.heap creator type res price minfrac
    (.ok (), { w with objs := w.objs ++ [r.1], heap := r.2 })
  | Call.Clone i =>
    match w.objs[i]? with
    | some t =>
      let r := t.Clone w.heap
      (.ok (), { w with objs := w.objs ++ [r.1], heap := r.2 })
    | none => (.error Exn.NullDeref, w)
  | Call.MatchWith i j => w.MatchWith i j
  | Call.SetCommod i c => w.update i (fun t => t.SetCommod c)
  | Call.SetPrice i p => w.update i (fun t => t.SetPrice p)
  | Call.SetResource i r =>
    match w.objs[i]? with
    | some t =>
      let x := t.SetResource w.heap r
      (.ok (), { w with objs := w.objs.set i x.1, heap := x.2 })
    | none => (.error Exn.NullDeref, w)
  | Call.SetMinFrac i m => w.update i (fun t => t.SetMinFrac m)

/-- A sequence of calls, failing ones included (a failed call leaves its state). -/
def World.run (w : World) : List Call → World
  | [] => w
  | c :: cs => World.run (w.step c).2 cs

/-- The id held by object `i`, if the object exists and its id was assigned. -/
def World.idOf (w : World) (i : Nat) : Option Int :=
  (w.objs[i]?).bind (fun t => t.trans_id_)

/-- The history of a run, kept beside the state for the purpose of stating properties:
`log` has one entry per successful `MatchWith`, in order, `(id, i, j)` for
`objs[i].MatchWith(objs[j])` with `id` the id found in `objs[i]` right after the call;
`src[p]` is the object whose own match gave `objs[p]` the id it holds now: `p` itself,
or, for an object made by `Clone`, the `src` of the object it was copied from. -/
structure Traced where
  w : World
  log : List (Option Int × Nat × Nat)
  src : List Nat
  deriving DecidableEq, Repr

/-- The traced state at process start. -/
def Traced.initial : Traced := { w := World.initial, log := [], src := [] }

/-- One call, with the history extended. -/
def Traced.step (g : Traced) (c : Call) : Traced :=
  match c, (g.w.step c).1 with
  | Call.New _ _ _ _ _, _ =>
    { w := (g.w.step c).2, log := g.log, src := g.src ++ [g.w.objs.length] }
  | Call.Clone i, .ok () =>
    { w := (g.w.step c).2, log := g.log, src := g.src ++ [g.src.getD i i] }
  | Call.MatchWith i j, .ok () =>
    { w := (g.w.step c).2, log := g.log ++ [((g.w.step c).2.idOf i, i, j)],
      src := (g.src.set i i).set j j }
  | _, _ => { w := (g.w.step c).2, log := g.log, src := g.src }

/-- A sequence of calls, with the history extended. -/
def Traced.run (g : Traced) : List Call → Traced
  | [] => g
  | c :: cs => Traced.run (g.step c) cs

/-- The claim "no two distinct transactions hold the same id unless they are the two
sides of one match": whenever two distinct objects hold the same assigned id `k`, the
log has a match with id `k` whose two sides are these two objects. -/
def IdSharedOnlyBySides (g : Traced) : Prop :=
  ∀ i j k, i ≠ j → g.w.idOf i = some k → g.w.idOf j = some k →
    (some k, i, j) ∈ g.log ∨ (some k, j, i) ∈ g.log

/-- The property of ids that holds with `Clone`: whenever two distinct objects hold the
same assigned id `k`, the log has exactly one match with id `k`, and each of the two
objects got its id from a side of that match (it is that side, or was copied from it by
`Clone`). -/
def IdSharedOnlyBySidesOrCopies (g : Traced) : Prop :=
  ∀ i j k, i ≠ j → g.w.idOf i = some k → g.w.idOf j = some k →
    ∃ x y, (some k, x, y) ∈ g.log ∧
      (∀ x1 y1, (some k, x1, y1) ∈ g.log → x1 = x ∧ y1 = y) ∧
      (g.src[i]? = some x ∨ g.src[i]? = some y) ∧
      (g.src[j]? = some x ∨ g.src[j]? = some y)

/-- The ids `1, 2, ..., m` in order. -/
def firstIds (m : Nat) : List (Option Int) :=
  (List.range m).map (fun (k : Nat) => some ((k : Int) + 1))

/-- The ids `1, 2, ..., m` as the `int` counter produces them: wrapped into the range of
`int`. -/
def wrappedIds (m : Nat) : List (Option Int) :=
  (List.range m).map (fun (k : Nat) => some (wrapInt ((k : Int) + 1)))

/-- What every state of a traced run satisfies: `src` names every object; the counter is
1 plus the number of matches so far, wrapped into `int`; the matches so far got the ids
`1, 2, ...`, wrapped into `int`, in order; every assigned id held by an object is the id
of a logged match, a side of which is the `src` of the object. -/
def Traced.Inv (g : Traced) : Prop :=
  g.src.length = g.w.objs.length
    ∧ g.w.next_trans_id_ = wrapInt (1 + (g.log.length : Int))
    ∧ g.log.map (fun e => e.1) = wrappedIds g.log.length
    ∧ ∀ i k, g.w.idOf i = some k →
        ∃ x y, (some k, x, y) ∈ g.log ∧ (g.src[i]? = some x ∨ g.src[i]? = some y)

/-- The calls "new offer, new request, then match them `m` times". -/
def matchRepeatedly (m : Nat) : List Call :=
  [Call.New (some 1) TransType.OFFER none 5 0,
   Call.New (some 2) TransType.REQUEST none 5 0]
    ++ List.replicate m (Call.MatchWith 0 1)

/-- Whether a call is a `Clone`. -/
def Call.isClone : Call → Bool
  | Call.Clone _ => true
  | _ => false

/-- The calls of the scenario "match an offer with a request, then clone the offer". -/
def cloneAfterMatch : List Call :=
  [Call.New (some 1) TransType.OFFER none 5 0,
   Call.New (some 2) TransType.REQUEST none 5 0,
   Call.MatchWith 0 1,
   Call.Clone 0]

/-! ## The exchange context

`ExchangeContext`, `Request`, `Bid` and the portfolios are known here through the spec and
through `src/tests/exchange_context_tests.cc`, which calls them; their definitions follow
the spec (sections 3 and 4.2). -/

/-- Modelled from the spec: `Request<T>` (request.h is missing).  "requester: identity of
owning agent, commodity: string, target: T-specification, preference: floating-point
scalar"; identity is reference identity, carried as the address `addr`. -/
structure Request where
  addr : Nat
  requester : Nat
  commodity : String
  target : Nat
  preference : Double
  deriving DecidableEq, Repr

/-- Modelled from the spec: `Bid<T>` (bid.h is missing).  "offer: T, bidder: identity of
owning agent, request: reference to the Request it answers"; `addr` is the identity of
the bid. -/
structure Bid where
  addr : Nat
  request : Request
  offer : Nat
  bidder : Nat
  deriving DecidableEq, Repr

/-- Modelled from the spec: `RequestPortfolio<T>` (request_portfolio.h is missing): "an
insertion-ordered sequence of same-kind elements", with its identity `addr`. -/
structure RequestPortfolio where
  addr : Nat
  requests : List Request
  deriving DecidableEq, Repr

/-- Modelled from the spec: `BidPortfolio<T>` (bid_portfolio.h is missing): "an
insertion-ordered sequence of same-kind elements", with its identity `addr`. -/
structure BidPortfolio where
  addr : Nat
  bids : List Bid
  deriving DecidableEq, Repr

/-- Modelled from the spec: a preference map, "request → ordered sequence of (bid,
effective-preference) pairs": the requests that are its keys, and the sequence at each
key. -/
structure PrefMap where
  keys : List Request
  seq : Request → List (Bid × Double)

/-- The sequence a preference map has at request `r`, if `r` is one of its keys. -/
def PrefMap.get? (m : PrefMap) (r : Request) : Option (List (Bid × Double)) :=
  if r ∈ m.keys then some (m.seq r) else none

/-- Modelled from the spec: the comparison of two sequences of a preference map,
"identical ordered (bid, preference) sequences (preference compared by value equality,
not identity)": same length, and at each position the same bid and preferences that are
equal as doubles. -/
def prefSeqEq : List (Bid × Double) → List (Bid × Double) → Bool
  | [], [] => true
  | x :: l1, y :: l2 => decide (x.1 = y.1) && Double.eq x.2 y.2 && prefSeqEq l1 l2
  | _, _ => false

/-- Modelled from the spec: the comparison `m1 == m2` of two preference maps: "equal iff
they have identical request keys and, per key, identical ordered (bid, preference)
sequences". -/
def PrefMap.eq (m1 m2 : PrefMap) : Bool :=
  m1.keys.all (fun r => decide (r ∈ m2.keys))
    && m2.keys.all (fun r => decide (r ∈ m1.keys))
    && m1.keys.all (fun r => prefSeqEq (m1.seq r) (m2.seq r))

/-- Modelled from the spec: the state of `ExchangeContext<T>` (exchange_context.h is
missing): "the full sequence of RequestPortfolios and BidPortfolios published so far,
plus derived indices: commodity→ordered sequence of Requests, commodity→ordered sequence
of Bids, request→ordered sequence of Bids answering it, requester-identity set,
bidder-identity set".  An index maps a key that was never used to the empty sequence. -/
structure ExchangeContext where
  requests : List RequestPortfolio
  bids : List BidPortfolio
  RequestsForCommod : String → List Request
  BidsForCommod : String → List Bid
  BidsForRequest : Request → List Bid
  requesters : Finset Nat
  bidders : Finset Nat

/-- Modelled from the spec: a context in which nothing was published. -/
def ExchangeContext.fresh : ExchangeContext :=
  { requests := [], bids := [], RequestsForCommod := fun _ => [], BidsForCommod := fun _ => [],
    BidsForRequest := fun _ => [], requesters := ∅, bidders := ∅ }

/-- Modelled from the spec: what `AddRequestPortfolio` does for one request `r`:
"appends r to commodity-index[r.commodity] and to the requester set". -/
def ExchangeContext.AddRequest (ctx : ExchangeContext) (r : Request) : ExchangeContext :=
  { ctx with
    RequestsForCommod := fun c =>
      if c = r.commodity then ctx.RequestsForCommod c ++ [r] else ctx.RequestsForCommod c,
    requesters := insert r.requester ctx.requesters }

/-- Modelled from the spec: `AddRequestPortfolio(p)`: "appends p to the request-portfolio
sequence; for every Request r in p, appends r to commodity-index[r.commodity] and to the
requester set". -/
def ExchangeContext.AddRequestPortfolio (ctx : ExchangeContext) (p : RequestPortfolio) :
    ExchangeContext :=
  p.requests.foldl ExchangeContext.AddRequest { ctx with requests := ctx.requests ++ [p] }

/-- Modelled from the spec: what `AddBidPortfolio` does for one bid `b`: "appends b to
commodity-index[b.request.commodity], to request→bids-index[b.request], and to the bidder
set". -/
def ExchangeContext.AddBid (ctx : ExchangeContext) (b : Bid) : ExchangeContext :=
  { ctx with
    BidsForCommod := fun c =>
      if c = b.request.commodity then ctx.BidsForCommod c ++ [b] else ctx.BidsForCommod c,
    BidsForRequest := fun r =>
      if r = b.request then ctx.BidsForRequest r ++ [b] else ctx.BidsForRequest r,
    bidders := insert b.bidder ctx.bidders }

/-- Modelled from the spec: `AddBidPortfolio(p)`: "appends p to the bid-portfolio
sequence; for every Bid b in p, appends b to" the indices and the bidder set. -/
def ExchangeContext.AddBidPortfolio (ctx : ExchangeContext) (p : BidPortfolio) :
    ExchangeContext :=
  p.bids.foldl ExchangeContext.AddBid { ctx with bids := ctx.bids ++ [p] }

/-- The requests of a sequence of request portfolios, portfolio after portfolio, in
insertion order within a portfolio. -/
def requestsOf : List RequestPortfolio → List Request
  | [] => []
  | p :: ps => p.requests ++ requestsOf ps

/-- The bids of a sequence of bid portfolios, portfolio after portfolio, in insertion
order within a portfolio. -/
def bidsOf : List BidPortfolio → List Bid
  | [] => []
  | p :: ps => p.bids ++ bidsOf ps

/-- Modelled from the spec: `Prefs(requester)`: "for each of that requester's published
Requests, the ordered sequence of (Bid, effective-preference) pairs built from all Bids
indexed against that Request, in bid-arrival order", the effective preference being "the
request's stated preference". -/
def ExchangeContext.Prefs (ctx : ExchangeContext) (requester : Nat) : PrefMap :=
  { keys := (requestsOf ctx.requests).filter (fun r => r.requester = requester),
    seq := fun r => (ctx.BidsForRequest r).map (fun b => (b, r.preference)) }

/-- One publication into a context: a request portfolio or a bid portfolio. -/
inductive Publication where
  | Requests (p : RequestPortfolio)
  | Bids (p : BidPortfolio)
  deriving DecidableEq, Repr

/-- One publication. -/
def ExchangeContext.step (ctx : ExchangeContext) : Publication → ExchangeContext
  | Publication.Requests p => ctx.AddRequestPortfolio p
  | Publication.Bids p => ctx.AddBidPortfolio p

/-- A sequence of publications, in order. -/
def ExchangeContext.publish (ctx : ExchangeContext) : List Publication → ExchangeContext
  | [] => ctx
  | x :: xs => ExchangeContext.publish (ctx.step x) xs

/-- The request portfolios among a sequence of publications, in order. -/
def requestPortfoliosOf : List Publication → List RequestPortfolio
  | [] => []
  | Publication.Requests p :: xs => p :: requestPortfoliosOf xs
  | Publication.Bids _ :: xs => requestPortfoliosOf xs

/-- The bid portfolios among a sequence of publications, in order. -/
def bidPortfoliosOf : List Publication → List BidPortfolio
  | [] => []
  | Publication.Requests _ :: xs => bidPortfoliosOf xs
  | Publication.Bids p :: xs => p :: bidPortfoliosOf xs

/-- The request of the test fixture: `req1`, by agent 1 (`fac1`) for "commod1", with
preference 0.5 (the bit pattern of the double 0.5). -/
def req1 : Request :=
  { addr := 1, requester := 1, commodity := "commod1", target := 0,
    preference := 0x3FE0000000000000 }

/-- The request `req2` of the test fixture, by agent 2 (`fac2`) for "commod1". -/
def req2 : Request :=
  { addr := 2, requester := 2, commodity := "commod1", target := 0,
    preference := 0x3FE0000000000000 }

/-- The bid of test `AddBid1`: agent 1 answers `req1`. -/
def bid1 : Bid := { addr := 11, request := req1, offer := 0, bidder := 1 }

/-- The publications of test `AddBid1`: the portfolio of `req1`, then the portfolio of
`bid1`. -/
def addBid1 : List Publication :=
  [Publication.Requests { addr := 21, requests := [req1] },
   Publication.Bids { addr := 31, bids := [bid1] }]

/-- The relation "context `ctx2` is context `ctx` after the request portfolios `rps` and
the bid portfolios `bps` were published": the two portfolio sequences are extended by
them, every index is extended by the matching requests or bids in publication order, and
the two agent sets gain the owners. -/
def ExchangeContext.Extends (ctx ctx2 : ExchangeContext) (rps : List RequestPortfolio)
    (bps : List BidPortfolio) : Prop :=
  ctx2.requests = ctx.requests ++ rps
    ∧ ctx2.bids = ctx.bids ++ bps
    ∧ (∀ c, ctx2.RequestsForCommod c
        = ctx.RequestsForCommod c ++ (requestsOf rps).filter (fun r => r.commodity = c))
    ∧ (∀ c, ctx2.BidsForCommod c
        = ctx.BidsForCommod c ++ (bidsOf bps).filter (fun b => b.request.commodity = c))
    ∧ (∀ r, ctx2.BidsForRequest r
        = ctx.BidsForRequest r ++ (bidsOf bps).filter (fun b => b.request = r))
    ∧ ctx2.requesters = ctx.requesters ∪ ((requestsOf rps).map (fun r => r.requester)).toFinset
    ∧ ctx2.bidders = ctx.bidders ∪ ((bidsOf bps).map (fun b => b.bidder)).toFinset

/-- The preference map the test `AddBid1` expects to equal `Prefs`: `req1` mapped to
`bid1` with the preference of `req1`. -/
def obsExpected : PrefMap :=
  { keys := [req1], seq := fun _ => [(bid1, req1.preference)] }

/-- The preference map the test `AddBid1` expects not to equal `Prefs`: `req1` mapped
to `bid1` with preference 0.5 * 0.1 (the bit pattern of that double, 0.05). -/
def obsScaled : PrefMap :=
  { keys := [req1], seq := fun _ => [(bid1, 0x3FA999999999999A)] }

/-- The bids of test `AddBid2` for `req1`: `bid1` of agent 1 in the first portfolio,
`bid3` of agent 2 in the second. -/
def bid3 : Bid := { addr := 13, request := req1, offer := 0, bidder := 2 }

/-! ## Helper lemmas -/

theorem List.set_eq_self_of_getElem? {α : Type} (l : List α) (i : Nat) (a : α)
    (h : l[i]? = some a) : l.set i a = l := by
  induction l generalizing i with
  | nil => rfl
  | cons x xs ih =>
    cases i with
    | zero => simp at h; simp [h]
    | succ n => simp at h; simp [ih n h]

/-! ## Matching -/

theorem matchWith_throws (a b : Transaction) (n : Int) (h : a.type_ = b.type_) :
    Transaction.MatchWith { self := a, other := b, next_trans_id_ := n }
        = (.error (Exn.ValueError incompatibleMsg),
           { self := a, other := b, next_trans_id_ := n }) := by
  simp [Transaction.MatchWith, h]

theorem World.matchWith_same_type (w : World) (i j : Nat) (a b : Transaction)
    (hi : w.objs[i]? = some a) (hj : w.objs[j]? = some b) (h : a.type_ = b.type_) :
    w.MatchWith i j = (.error (Exn.ValueError incompatibleMsg), w) := by
  simp only [World.MatchWith, hi, hj, matchWith_throws a b _ h]
  rw [List.set_eq_self_of_getElem? _ _ _ hi, List.set_eq_self_of_getElem? _ _ _ hj]

/-- C1: when the receiver `a` and the argument `b` of `MatchWith` have the same type, the
call throws the `ValueError` and the receiver, the argument and the counter are what they
were; the same holds in any process state, for any two references `i`, `j` to
transactions of the same type (`i = j` included): the whole state is unchanged. -/
theorem MatchWith_same_type_throws (a b : Transaction) (n : Int) (h : a.type_ = b.type_) :
    Transaction.MatchWith { self := a, other := b, next_trans_id_ := n }
        = (.error (Exn.ValueError incompatibleMsg),
           { self := a, other := b, next_trans_id_ := n })
      ∧ ∀ (w : World) (i j : Nat), w.objs[i]? = some a → w.objs[j]? = some b →
          w.MatchWith i j = (.error (Exn.ValueError incompatibleMsg), w) := by
  refine ⟨by simp [Transaction.MatchWith, h], ?_⟩
  intro w i j hi hj
  have key : Transaction.MatchWith { self := a, other := b, next_trans_id_ := w.next_trans_id_ }
      = (.error (Exn.ValueError incompatibleMsg),
         { self := a, other := b, next_trans_id_ := w.next_trans_id_ }) := by
    simp [Transaction.MatchWith, h]
  simp only [World.MatchWith, hi, hj, key]
  have h2 : w.objs.set i a = w.objs := List.set_eq_self_of_getElem? _ _ _ hi
  have h3 : w.objs.set j b = w.objs := List.set_eq_self_of_getElem? _ _ _ hj
  simp [h2, h3]

theorem MatchWith_same_type_throws_witness :
    Transaction.MatchWith
        { self := (Transaction.ctor [] (some 1) TransType.OFFER none 5 0).1,
          other := (Transaction.ctor [] (some 2) TransType.OFFER none 7 0).1,
          next_trans_id_ := 1 }
        = (.error (Exn.ValueError incompatibleMsg),
           { self := (Transaction.ctor [] (some 1) TransType.OFFER none 5 0).1,
             other := (Transaction.ctor [] (some 2) TransType.OFFER none 7 0).1,
             next_trans_id_ := 1 }) :=
  (MatchWith_same_type_throws (Transaction.ctor [] (some 1) TransType.OFFER none 5 0).1
    (Transaction.ctor [] (some 2) TransType.OFFER none 7 0).1 1 rfl).1

theorem matchWith_opposite_types (a b : Transaction) (n : Int) (h : a.type_ ≠ b.type_) :
    (Transaction.MatchWith { self := a, other := b, next_trans_id_ := n }).1 = .ok ()
      ∧ (Transaction.MatchWith { self := a, other := b, next_trans_id_ := n }).2.self.trans_id_
          = some n
      ∧ (Transaction.MatchWith { self := a, other := b, next_trans_id_ := n }).2.other.trans_id_
          = some n
      ∧ (Transaction.MatchWith { self := a, other := b, next_trans_id_ := n }).2.next_trans_id_
          = wrapInt (n + 1) := by
  have h' : ¬ b.type_ = a.type_ := fun e => h e.symm
  unfold Transaction.MatchWith
  simp only [if_neg h']
  by_cases ho : a.type_ = TransType.OFFER <;> simp [ho]

/-- C2, as found in the code: the counter is an `int`.  With the counter at `INT_MAX`
a match of an offer with a request succeeds and gives both the id `INT_MAX`, but the
counter does not advance to `INT_MAX + 1`: it wraps to `INT_MIN`. -/
theorem MatchWith_counter_wraps :
    (Transaction.MatchWith
        { self := (Transaction.ctor [] (some 1) TransType.OFFER none 5 0).1,
          other := (Transaction.ctor [] (some 2) TransType.REQUEST none 7 0).1,
          next_trans_id_ := 2147483647 }).1 = .ok ()
      ∧ (Transaction.MatchWith
        { self := (Transaction.ctor [] (some 1) TransType.OFFER none 5 0).1,
          other := (Transaction.ctor [] (some 2) TransType.REQUEST none 7 0).1,
          next_trans_id_ := 2147483647 }).2.next_trans_id_ = -2147483648
      ∧ (Transaction.MatchWith
        { self := (Transaction.ctor [] (some 1) TransType.OFFER none 5 0).1,
          other := (Transaction.ctor [] (some 2) TransType.REQUEST none 7 0).1,
          next_trans_id_ := 2147483647 }).2.next_trans_id_ ≠ 2147483647 + 1 :=
  ⟨rfl, by decide, by decide⟩

/-- C2, amended: when the receiver `a` and the argument `b` of `MatchWith` have opposite
types and the counter is an `int` `n` below `INT_MAX`, the call succeeds, both
transactions then hold the id `n`, and the counter is `n + 1`. -/
theorem MatchWith_assigns_counter (a b : Transaction) (n : Int) (h : a.type_ ≠ b.type_)
    (hlo : INT_MIN ≤ n) (hhi : n < INT_MAX) :
    (Transaction.MatchWith { self := a, other := b, next_trans_id_ := n }).1 = .ok ()
      ∧ (Transaction.MatchWith { self := a, other := b, next_trans_id_ := n }).2.self.trans_id_
          = some n
      ∧ (Transaction.MatchWith { self := a, other := b, next_trans_id_ := n }).2.other.trans_id_
          = some n
      ∧ (Transaction.MatchWith { self := a, other := b, next_trans_id_ := n }).2.next_trans_id_
          = n + 1 := by
  have h' : ¬ b.type_ = a.type_ := fun e => h e.symm
  have hw : wrapInt (n + 1) = n + 1 := by
    unfold INT_MIN at hlo
    unfold INT_MAX at hhi
    unfold wrapInt
    omega
  unfold Transaction.MatchWith
  simp only [if_neg h']
  by_cases ho : a.type_ = TransType.OFFER <;> simp [ho, hw]

theorem MatchWith_assigns_counter_witness :
    (Transaction.MatchWith
        { self := (Transaction.ctor [] (some 1) TransType.OFFER none 5 0).1,
          other := (Transaction.ctor [] (some 2) TransType.REQUEST none 7 0).1,
          next_trans_id_ := 41 }).2.next_trans_id_ = 41 + 1 :=
  (MatchWith_assigns_counter (Transaction.ctor [] (some 1) TransType.OFFER none 5 0).1
    (Transaction.ctor [] (some 2) TransType.REQUEST none 7 0).1 41 (by decide) (by decide)
    (by decide)).2.2.2

/-- C3: for an offer `o` and a request `r`, after `o.MatchWith(r)` and likewise after
`r.MatchWith(o)`, both transactions have the supplier `o` had and the requester `r` had,
whatever `o.requester_` and `r.supplier_` held before; and when `o` and `r` come from the
constructor with creators `c1` and `c2` that are not null, the four role fields are
`c1`, `c2`, `c1`, `c2`: none is null. -/
theorem MatchWith_fills_roles (o r : Transaction) (n : Int)
    (ho : o.type_ = TransType.OFFER) (hr : r.type_ = TransType.REQUEST) :
    ((Transaction.MatchWith { self := o, other := r, next_trans_id_ := n }).2.self.supplier_
          = o.supplier_
      ∧ (Transaction.MatchWith { self := o, other := r, next_trans_id_ := n }).2.self.requester_
          = r.requester_
      ∧ (Transaction.MatchWith { self := o, other := r, next_trans_id_ := n }).2.other.supplier_
          = o.supplier_
      ∧ (Transaction.MatchWith { self := o, other := r, next_trans_id_ := n }).2.other.requester_
          = r.requester_)
    ∧ ((Transaction.MatchWith { self := r, other := o, next_trans_id_ := n }).2.other.supplier_
          = o.supplier_
      ∧ (Transaction.MatchWith { self := r, other := o, next_trans_id_ := n }).2.other.requester_
          = r.requester_
      ∧ (Transaction.MatchWith { self := r, other := o, next_trans_id_ := n }).2.self.supplier_
          = o.supplier_
      ∧ (Transaction.MatchWith { self := r, other := o, next_trans_id_ := n }).2.self.requester_
          = r.requester_)
    ∧ ∀ (h1 h2 : Heap) (c1 c2 : Nat) (res1 res2 : ResourcePtr) (p1 m1 p2 m2 : Double),
        o = (Transaction.ctor h1 (some c1) TransType.OFFER res1 p1 m1).1 →
        r = (Transaction.ctor h2 (some c2) TransType.REQUEST res2 p2 m2).1 →
        (Transaction.MatchWith { self := o, other := r, next_trans_id_ := n }).2.self.supplier_
            = some c1
        ∧ (Transaction.MatchWith { self := o, other := r, next_trans_id_ := n }).2.self.requester_
            = some c2
        ∧ (Transaction.MatchWith { self := o, other := r, next_trans_id_ := n }).2.other.supplier_
            = some c1
        ∧ (Transaction.MatchWith { self := o, other := r, next_trans_id_ := n }).2.other.requester_
            = some c2
        ∧ (Transaction.MatchWith { self := r, other := o, next_trans_id_ := n }).2.self.supplier_
            = some c1
        ∧ (Transaction.MatchWith { self := r, other := o, next_trans_id_ := n }).2.self.requester_
            = some c2
        ∧ (Transaction.MatchWith { self := r, other := o, next_trans_id_ := n }).2.other.supplier_
            = some c1
        ∧ (Transaction.MatchWith { self := r, other := o, next_trans_id_ := n }).2.other.requester_
            = some c2 := by
  have e1 : (Transaction.MatchWith { self := o, other := r, next_trans_id_ := n }).2.self.supplier_
          = o.supplier_
      ∧ (Transaction.MatchWith { self := o, other := r, next_trans_id_ := n }).2.self.requester_
          = r.requester_
      ∧ (Transaction.MatchWith { self := o, other := r, next_trans_id_ := n }).2.other.supplier_
          = o.supplier_
      ∧ (Transaction.MatchWith { self := o, other := r, next_trans_id_ := n }).2.other.requester_
          = r.requester_ := by
    simp [Transaction.MatchWith, ho, hr, Transaction.supplier, Transaction.requester]
  have e2 : (Transaction.MatchWith { self := r, other := o, next_trans_id_ := n }).2.other.supplier_
          = o.supplier_
      ∧ (Transaction.MatchWith { self := r, other := o, next_trans_id_ := n }).2.other.requester_
          = r.requester_
      ∧ (Transaction.MatchWith { self := r, other := o, next_trans_id_ := n }).2.self.supplier_
          = o.supplier_
      ∧ (Transaction.MatchWith { self := r, other := o, next_trans_id_ := n }).2.self.requester_
          = r.requester_ := by
    simp [Transaction.MatchWith, ho, hr, Transaction.supplier, Transaction.requester]
  refine ⟨e1, e2, ?_⟩
  intro h1 h2 c1 c2 res1 res2 p1 m1 p2 m2 eo er
  have so : o.supplier_ = some c1 := by
    rw [eo]; cases res1 <;> simp [Transaction.ctor, Transaction.SetResource]
  have rr : r.requester_ = some c2 := by
    rw [er]; cases res2 <;> simp [Transaction.ctor, Transaction.SetResource]
  obtain ⟨a1, a2, a3, a4⟩ := e1
  obtain ⟨b1, b2, b3, b4⟩ := e2
  exact ⟨a1.trans so, a2.trans rr, a3.trans so, a4.trans rr,
    b3.trans so, b4.trans rr, b1.trans so, b2.trans rr⟩

theorem MatchWith_fills_roles_witness :
    (Transaction.MatchWith
        { self := (Transaction.ctor [] (some 1) TransType.REQUEST none 7 0).1,
          other := { (Transaction.ctor [] (some 2) TransType.OFFER none 5 0).1 with
                       requester_ := some 9 },
          next_trans_id_ := 1 }).2.other.requester_ = some 1 :=
  (MatchWith_fills_roles
    { (Transaction.ctor [] (some 2) TransType.OFFER none 5 0).1 with requester_ := some 9 }
    (Transaction.ctor [] (some 1) TransType.REQUEST none 7 0).1 1 rfl rfl).2.1.2.1

/-! ## Construction -/

/-- C8: the transaction built by the constructor from creator `c`, a type, a resource,
price `p` and minfrac `m` has price `p`, minfrac `m` and that type; for an offer the
supplier is `c` and the requester is null, otherwise the requester is `c` and the
supplier is null. -/
theorem ctor_fields (h : Heap) (c : ModelPtr) (type : TransType) (res : ResourcePtr)
    (p m : Double) :
    (Transaction.ctor h c type res p m).1.price = p
      ∧ (Transaction.ctor h c type res p m).1.Minfrac = m
      ∧ (Transaction.ctor h c type res p m).1.type_ = type
      ∧ (Transaction.ctor h c type res p m).1.IsOffer = decide (type = TransType.OFFER)
      ∧ (if type = TransType.OFFER then
          (Transaction.ctor h c type res p m).1.supplier = c
            ∧ (Transaction.ctor h c type res p m).1.requester = none
        else
          (Transaction.ctor h c type res p m).1.requester = c
            ∧ (Transaction.ctor h c type res p m).1.supplier = none) := by
  cases type <;> cases res <;>
    simp [Transaction.ctor, Transaction.SetResource, Transaction.price, Transaction.Minfrac,
      Transaction.IsOffer, Transaction.supplier, Transaction.requester]

/-! ## The held resource -/

theorem Clone_fresh (h : Heap) (r : Nat) (hr : r < h.length) :
    (Resource.Clone h r).1 ≠ r
      ∧ (∀ v, (Resource.mutate (Resource.Clone h r).2 r v)[(Resource.Clone h r).1]? = h[r]?)
      ∧ ∀ a, a < h.length → (Resource.Clone h r).2[a]? = h[a]? := by
  refine ⟨?_, ?_, ?_⟩
  · simp only [Resource.Clone]; omega
  · intro v
    have hne : r ≠ h.length := by omega
    simp only [Resource.Clone, Resource.mutate]
    rw [List.getElem?_set_ne hne]
    simp [List.getD_eq_getElem?_getD, List.getElem?_eq_getElem hr]
  · intro a ha
    simp only [Resource.Clone]
    rw [List.getElem?_append_left ha]

/-- C9: for a resource `r` that is not null (it points to a live object of the heap),
after `t.SetResource(r)` the transaction holds the object returned by `r.Clone()`, which
is not `r`; the held object has the state `r` had at the call and keeps it when `r` is
mutated afterwards.  The same holds for the resource passed to the constructor. -/
theorem SetResource_stores_clone (t : Transaction) (h : Heap) (r : Nat) (hr : r < h.length) :
    ((t.SetResource h (some r)).1.resource = some (Resource.Clone h r).1
      ∧ (t.SetResource h (some r)).2 = (Resource.Clone h r).2
      ∧ (t.SetResource h (some r)).1.resource ≠ some r
      ∧ ∀ c, (t.SetResource h (some r)).1.resource = some c →
          ∀ v, (Resource.mutate (t.SetResource h (some r)).2 r v)[c]? = h[r]?)
    ∧ ∀ (creator : ModelPtr) (type : TransType) (p m : Double),
        (Transaction.ctor h creator type (some r) p m).1.resource = some (Resource.Clone h r).1
        ∧ (Transaction.ctor h creator type (some r) p m).2 = (Resource.Clone h r).2
        ∧ (Transaction.ctor h creator type (some r) p m).1.resource ≠ some r
        ∧ ∀ c, (Transaction.ctor h creator type (some r) p m).1.resource = some c →
            ∀ v, (Resource.mutate (Transaction.ctor h creator type (some r) p m).2 r v)[c]?
              = h[r]? := by
  obtain ⟨f1, f2, _⟩ := Clone_fresh h r hr
  have s1 : (t.SetResource h (some r)).1.resource = some (Resource.Clone h r).1 := rfl
  have s2 : (t.SetResource h (some r)).2 = (Resource.Clone h r).2 := rfl
  have c1 : ∀ (creator : ModelPtr) (type : TransType) (p m : Double),
      (Transaction.ctor h creator type (some r) p m).1.resource
        = some (Resource.Clone h r).1 := by
    intro creator type p m
    cases type <;> simp [Transaction.ctor, Transaction.SetResource, Transaction.resource]
  have c2 : ∀ (creator : ModelPtr) (type : TransType) (p m : Double),
      (Transaction.ctor h creator type (some r) p m).2 = (Resource.Clone h r).2 := by
    intro creator type p m
    cases type <;> simp [Transaction.ctor, Transaction.SetResource]
  refine ⟨⟨s1, s2, ?_, ?_⟩, ?_⟩
  · rw [s1]; intro e; exact f1 (Option.some.inj e)
  · intro c hc v
    rw [s1] at hc
    rw [s2, ← Option.some.inj hc]
    exact f2 v
  · intro creator type p m
    refine ⟨c1 creator type p m, c2 creator type p m, ?_, ?_⟩
    · rw [c1]; intro e; exact f1 (Option.some.inj e)
    · intro c hc v
      rw [c1] at hc
      rw [c2, ← Option.some.inj hc]
      exact f2 v

theorem SetResource_stores_clone_witness :
    ((Transaction.ctor [] none TransType.OFFER none 5 0).1.SetResource [10, 20] (some 1)).1.resource
        ≠ some 1 :=
  (SetResource_stores_clone (Transaction.ctor [] none TransType.OFFER none 5 0).1 [10, 20] 1
    (by decide)).1.2.2.1

/-- C10: for a transaction `t` holding a resource `r` that is not null, `t.Clone()`
returns a transaction with the price, minfrac, commodity and type of `t`, holding the
object returned by `r.Clone()`, which is not `r` and has the state of `r`; the objects
that existed, `t` and its resource among them, are unchanged: the clone is a new object
added after them. -/
theorem Clone_copies (t : Transaction) (h : Heap) (r : Nat) (ht : t.resource_ = some r)
    (hr : r < h.length) :
    (t.Clone h).1.price = t.price
      ∧ (t.Clone h).1.Minfrac = t.Minfrac
      ∧ (t.Clone h).1.commod = t.commod
      ∧ (t.Clone h).1.type_ = t.type_
      ∧ (t.Clone h).1.resource = some (Resource.Clone h r).1
      ∧ (t.Clone h).1.resource ≠ t.resource
      ∧ (t.Clone h).2[(Resource.Clone h r).1]? = h[r]?
      ∧ (∀ a, a < h.length → (t.Clone h).2[a]? = h[a]?)
      ∧ ∀ (w : World) (i : Nat), w.heap = h → w.objs[i]? = some t →
          (w.step (Call.Clone i)).1 = .ok ()
          ∧ (w.step (Call.Clone i)).2.objs = w.objs ++ [(t.Clone h).1]
          ∧ (w.step (Call.Clone i)).2.objs[i]? = some t
          ∧ (w.step (Call.Clone i)).2.next_trans_id_ = w.next_trans_id_ := by
  obtain ⟨f1, _, f3⟩ := Clone_fresh h r hr
  have e : t.Clone h = ({ t with resource_ := some (Resource.Clone h r).1 },
      (Resource.Clone h r).2) := by
    simp [Transaction.Clone, Transaction.SetResource, ht]
  rw [e]
  refine ⟨rfl, rfl, rfl, rfl, rfl, ?_, ?_, f3, ?_⟩
  · simp only [Transaction.resource, ht]
    intro x; exact f1 (Option.some.inj x)
  · have hx : h[r]? = some (h.getD r 0) := by
      simp [List.getD_eq_getElem?_getD, List.getElem?_eq_getElem hr]
    simp only [Resource.Clone, hx]
    simp
  · intro w i hw hi
    have hlt : i < w.objs.length := by
      rcases Nat.lt_or_ge i w.objs.length with hl | hl
      · exact hl
      · rw [List.getElem?_eq_none hl] at hi; cases hi
    have es : w.step (Call.Clone i)
        = (.ok (), { w with objs := w.objs ++ [(t.Clone w.heap).1], heap := (t.Clone w.heap).2 }) := by
      simp only [World.step, hi]
    rw [es, hw, e]
    refine ⟨rfl, rfl, ?_, rfl⟩
    show (w.objs ++ _)[i]? = some t
    rw [List.getElem?_append_left hlt]
    exact hi

theorem Clone_copies_witness :
    ({ (Transaction.ctor [] none TransType.OFFER none 5 0).1 with resource_ := some 1 }.Clone
        [10, 20]).1.resource
      ≠ Transaction.resource
          { (Transaction.ctor [] none TransType.OFFER none 5 0).1 with resource_ := some 1 } :=
  (Clone_copies { (Transaction.ctor [] none TransType.OFFER none 5 0).1 with resource_ := some 1 }
    [10, 20] 1 rfl (by decide)).2.2.2.2.2.1

/-! ## Settlement -/

theorem ledger_append (tr tr2 : List Action) : ledger (tr ++ tr2) = ledger tr ++ ledger tr2 := by
  induction tr with
  | nil => rfl
  | cons a tr ih => cases a <;> simp [ledger, ih]

theorem addResourceCalls_append (tr tr2 : List Action) :
    addResourceCalls (tr ++ tr2) = addResourceCalls tr ++ addResourceCalls tr2 := by
  induction tr with
  | nil => rfl
  | cons a tr ih => cases a <;> simp [addResourceCalls, ih]

/-- C7: when the supplier's `RemoveResource` throws `e` during `t.ApproveTransfer()`,
the call ends with `e`, the only thing done is the call of `RemoveResource`: the ledger
is what it was (no "Transactions" and no "TransactedResources" record) and `AddResource`
of the requester is not called. -/
theorem ApproveTransfer_removal_fails (env : Env) (t : Transaction) (tr : List Action)
    (s : Nat) (e : Exn) (hs : t.supplier_ = some s)
    (hrm : env.RemoveResource s t = .error e) :
    t.ApproveTransfer env tr = (.error e, tr ++ [Action.RemoveResource s t])
      ∧ ledger (t.ApproveTransfer env tr).2 = ledger tr
      ∧ addResourceCalls (t.ApproveTransfer env tr).2 = addResourceCalls tr := by
  have e3 : t.ApproveTransfer env tr = (.error e, tr ++ [Action.RemoveResource s t]) := by
    simp only [Transaction.ApproveTransfer, hs, hrm]
  refine ⟨e3, ?_, ?_⟩
  · rw [e3]; simp [ledger_append, ledger]
  · rw [e3]; simp [addResourceCalls_append, addResourceCalls]

theorem ApproveTransfer_removal_fails_witness :
    ledger ({ sampleMatched with supplier_ := some 8 }.ApproveTransfer sampleEnv []).2
      = ledger [] :=
  (ApproveTransfer_removal_fails sampleEnv { sampleMatched with supplier_ := some 8 } [] 8
    (Exn.External 3) rfl rfl).2.1

/-! ## The id counter over a run -/

theorem World.MatchWith_cases (w : World) (i j : Nat) :
    ((∃ e, (w.MatchWith i j).1 = .error e) ∧ (w.MatchWith i j).2 = w)
    ∨ ∃ a b a1 b1, w.objs[i]? = some a ∧ w.objs[j]? = some b ∧ i ≠ j
        ∧ (w.MatchWith i j).1 = .ok ()
        ∧ (w.MatchWith i j).2 = { w with objs := (w.objs.set i a1).set j b1,
                                         next_trans_id_ := wrapInt (w.next_trans_id_ + 1) }
        ∧ a1.trans_id_ = some w.next_trans_id_ ∧ b1.trans_id_ = some w.next_trans_id_ := by
  cases hi : w.objs[i]? with
  | none => left; simp [World.MatchWith, hi]
  | some a =>
    cases hj : w.objs[j]? with
    | none => left; simp [World.MatchWith, hi, hj]
    | some b =>
      by_cases ht : a.type_ = b.type_
      · left
        have h := World.matchWith_same_type w i j a b hi hj ht
        rw [h]; exact ⟨⟨_, rfl⟩, rfl⟩
      · right
        have hne : i ≠ j := by
          intro e; subst e; rw [hi] at hj; cases hj; exact ht rfl
        obtain ⟨h1, h2, h3, h4⟩ := matchWith_opposite_types a b w.next_trans_id_ ht
        refine ⟨a, b, _, _, rfl, rfl, hne, ?_, ?_, h2, h3⟩
        · simp only [World.MatchWith, hi, hj]; exact h1
        · simp only [World.MatchWith, hi, hj, h4]

theorem World.idOf_lt (w : World) (i : Nat) (k : Int) (h : w.idOf i = some k) :
    i < w.objs.length := by
  rcases Nat.lt_or_ge i w.objs.length with hl | hl
  · exact hl
  · simp [World.idOf, List.getElem?_eq_none hl] at h

theorem ctor_trans_id (h : Heap) (c : ModelPtr) (type : TransType) (res : ResourcePtr)
    (p m : Double) : (Transaction.ctor h c type res p m).1.trans_id_ = none := by
  cases type <;> cases res <;> simp [Transaction.ctor, Transaction.SetResource]

theorem SetResource_trans_id (t : Transaction) (h : Heap) (r : ResourcePtr) :
    (t.SetResource h r).1.trans_id_ = t.trans_id_ := by
  cases r <;> simp [Transaction.SetResource]

theorem Clone_trans_id (t : Transaction) (h : Heap) :
    (t.Clone h).1.trans_id_ = t.trans_id_ := by
  simp [Transaction.Clone, SetResource_trans_id]

theorem firstIds_succ (m : Nat) : firstIds (m + 1) = firstIds m ++ [some ((m : Int) + 1)] := by
  simp [firstIds, List.range_succ]

theorem wrappedIds_succ (m : Nat) :
    wrappedIds (m + 1) = wrappedIds m ++ [some (wrapInt ((m : Int) + 1))] := by
  simp [wrappedIds, List.range_succ]

theorem wrappedIds_getElem? (m p : Nat) (e : Option Int) (h : (wrappedIds m)[p]? = some e) :
    e = some (wrapInt ((p : Int) + 1)) := by
  simp only [wrappedIds, List.getElem?_map] at h
  rcases Nat.lt_or_ge p m with hl | hl
  · rw [List.getElem?_range hl] at h
    simp at h
    exact h.symm
  · rw [List.getElem?_eq_none (by simpa using hl)] at h
    simp at h

/-- While at most `INT_MAX` matches were made, the wrapped ids are the ids `1, 2, ...`. -/
theorem wrappedIds_eq_firstIds (m : Nat) (h : m ≤ 2147483647) : wrappedIds m = firstIds m := by
  unfold wrappedIds firstIds
  apply List.map_congr_left
  intro k hk
  have hk2 : k < m := List.mem_range.mp hk
  have e : wrapInt ((k : Int) + 1) = (k : Int) + 1 := by
    unfold wrapInt
    omega
  rw [e]

theorem firstIds_getElem? (m p : Nat) (e : Option Int) (h : (firstIds m)[p]? = some e) :
    e = some ((p : Int) + 1) := by
  simp only [firstIds, List.getElem?_map] at h
  rcases Nat.lt_or_ge p m with hl | hl
  · rw [List.getElem?_range hl] at h
    simp at h
    exact h.symm
  · rw [List.getElem?_eq_none (by simpa using hl)] at h
    simp at h

/-- Two log entries with the same id are one entry. -/
theorem log_entry_unique (log : List (Option Int × Nat × Nat))
    (h : log.map (fun e => e.1) = firstIds log.length)
    (e1 e2 : Option Int × Nat × Nat) (h1 : e1 ∈ log) (h2 : e2 ∈ log) (he : e1.1 = e2.1) :
    e1 = e2 := by
  obtain ⟨p, hp⟩ := List.getElem?_of_mem h1
  obtain ⟨q, hq⟩ := List.getElem?_of_mem h2
  have a1 : (firstIds log.length)[p]? = some e1.1 := by
    rw [← h, List.getElem?_map, hp]; rfl
  have a2 : (firstIds log.length)[q]? = some e2.1 := by
    rw [← h, List.getElem?_map, hq]; rfl
  have b1 := firstIds_getElem? _ _ _ a1
  have b2 := firstIds_getElem? _ _ _ a2
  rw [he, b2] at b1
  have hpq : p = q := by
    have := Option.some.inj b1
    omega
  subst hpq
  rw [hp] at hq
  exact Option.some.inj hq

theorem Traced.Inv_frame (g g2 : Traced) (h : g.Inv) (hlog : g2.log = g.log)
    (hsrc : g2.src = g.src) (hnext : g2.w.next_trans_id_ = g.w.next_trans_id_)
    (hlen : g2.w.objs.length = g.w.objs.length) (hid : ∀ p, g2.w.idOf p = g.w.idOf p) :
    g2.Inv := by
  obtain ⟨h1, h2, h3, h4⟩ := h
  refine ⟨?_, ?_, ?_, ?_⟩
  · rw [hsrc, hlen]; exact h1
  · rw [hnext, hlog]; exact h2
  · rw [hlog]; exact h3
  · intro i k hk
    rw [hid] at hk
    rw [hlog, hsrc]
    exact h4 i k hk

theorem Traced.Inv_push (g g2 : Traced) (h : g.Inv) (t : Transaction) (s : Nat)
    (hlog : g2.log = g.log) (hobjs : g2.w.objs = g.w.objs ++ [t]) (hsrc : g2.src = g.src ++ [s])
    (hnext : g2.w.next_trans_id_ = g.w.next_trans_id_)
    (ht : ∀ k, t.trans_id_ = some k → ∃ x y, (some k, x, y) ∈ g.log ∧ (s = x ∨ s = y)) :
    g2.Inv := by
  obtain ⟨h1, h2, h3, h4⟩ := h
  refine ⟨?_, ?_, ?_, ?_⟩
  · rw [hsrc, hobjs]; simp [h1]
  · rw [hnext, hlog]; exact h2
  · rw [hlog]; exact h3
  · intro i k hk
    rw [hlog, hsrc]
    have hlt := World.idOf_lt _ _ _ hk
    rw [hobjs, List.length_append] at hlt
    simp only [List.length_singleton] at hlt
    rcases Nat.lt_or_ge i g.w.objs.length with hl | hl
    · have hk2 : g.w.idOf i = some k := by
        simp only [World.idOf, hobjs, List.getElem?_append_left hl] at hk
        exact hk
      obtain ⟨x, y, hm, hs⟩ := h4 i k hk2
      refine ⟨x, y, hm, ?_⟩
      rw [List.getElem?_append_left (by omega)]
      exact hs
    · have hi : i = g.w.objs.length := by omega
      subst hi
      have hk2 : t.trans_id_ = some k := by
        simp only [World.idOf, hobjs, List.getElem?_concat_length] at hk
        exact hk
      obtain ⟨x, y, hm, hs⟩ := ht k hk2
      refine ⟨x, y, hm, ?_⟩
      rw [← h1, List.getElem?_concat_length]
      rcases hs with hs | hs
      · left; rw [hs]
      · right; rw [hs]

theorem World.idOf_set (w : World) (i : Nat) (t t2 : Transaction) (hp : Heap)
    (hi : w.objs[i]? = some t) (ht : t2.trans_id_ = t.trans_id_) (p : Nat) :
    World.idOf { w with objs := w.objs.set i t2, heap := hp } p = w.idOf p := by
  simp only [World.idOf]
  by_cases e : i = p
  · subst e
    have hlt : i < w.objs.length := by
      rcases Nat.lt_or_ge i w.objs.length with hl | hl
      · exact hl
      · rw [List.getElem?_eq_none hl] at hi; cases hi
    rw [List.getElem?_set_self hlt, hi]
    simp [ht]
  · rw [List.getElem?_set_ne e]

theorem World.idOf_match (w : World) (i j : Nat) (a1 b1 : Transaction) (n : Int)
    (hne : i ≠ j) (hi : i < w.objs.length) (hj : j < w.objs.length)
    (ha : a1.trans_id_ = some w.next_trans_id_) (hb : b1.trans_id_ = some w.next_trans_id_)
    (p : Nat) :
    World.idOf { w with objs := (w.objs.set i a1).set j b1, next_trans_id_ := n } p
      = if p = i ∨ p = j then some w.next_trans_id_ else w.idOf p := by
  simp only [World.idOf]
  by_cases ej : p = j
  · subst ej
    rw [List.getElem?_set_self (by simpa using hj)]
    simp [hb]
  · rw [List.getElem?_set_ne (fun e => ej e.symm)]
    by_cases ei : p = i
    · subst ei
      rw [List.getElem?_set_self hi]
      simp [ha]
    · rw [List.getElem?_set_ne (fun e => ei e.symm)]
      simp [ei, ej]

theorem Traced.Inv_match (g : Traced) (h : g.Inv) (i j : Nat) (a1 b1 : Transaction)
    (hne : i ≠ j) (hi : i < g.w.objs.length) (hj : j < g.w.objs.length)
    (ha : a1.trans_id_ = some g.w.next_trans_id_)
    (hb : b1.trans_id_ = some g.w.next_trans_id_) :
    Traced.Inv
      { w := { g.w with objs := (g.w.objs.set i a1).set j b1,
                        next_trans_id_ := wrapInt (g.w.next_trans_id_ + 1) },
        log := g.log ++ [(some g.w.next_trans_id_, i, j)],
        src := (g.src.set i i).set j j } := by
  obtain ⟨h1, h2, h3, h4⟩ := h
  refine ⟨?_, ?_, ?_, ?_⟩
  · simp [h1]
  · simp only [List.length_append, List.length_singleton, h2]
    unfold wrapInt
    push_cast
    omega
  · have e : (1 : Int) + (g.log.length : Int) = (g.log.length : Int) + 1 := by ring
    simp only [List.map_append, List.map_cons, List.map_nil, List.length_append,
      List.length_singleton, wrappedIds_succ, h3, h2, e]
  · intro p k hk
    simp only [World.idOf_match g.w i j a1 b1 _ hne hi hj ha hb p] at hk
    by_cases ej : p = j
    · subst ej
      simp only [or_true, if_true] at hk
      refine ⟨i, p, ?_, Or.inr ?_⟩
      · rw [← Option.some.inj hk]; simp
      · show ((g.src.set i i).set p p)[p]? = some p
        rw [List.getElem?_set_self (by simpa [h1] using hj)]
    · by_cases ei : p = i
      · subst ei
        simp only [true_or, if_true] at hk
        refine ⟨p, j, ?_, Or.inl ?_⟩
        · rw [← Option.some.inj hk]; simp
        · show ((g.src.set p p).set j j)[p]? = some p
          rw [List.getElem?_set_ne (fun e => ej e.symm), List.getElem?_set_self (by rw [h1]; exact hi)]
      · simp only [ei, ej, or_self, if_false] at hk
        obtain ⟨x, y, hm, hs⟩ := h4 p k hk
        refine ⟨x, y, ?_, ?_⟩
        · exact List.mem_append_left _ hm
        · show ((g.src.set i i).set j j)[p]? = some x ∨ ((g.src.set i i).set j j)[p]? = some y
          rw [List.getElem?_set_ne (fun e => ej e.symm), List.getElem?_set_ne (fun e => ei e.symm)]
          exact hs

theorem getElem?_lt {α : Type} (l : List α) (i : Nat) (a : α) (h : l[i]? = some a) :
    i < l.length := by
  rcases Nat.lt_or_ge i l.length with hl | hl
  · exact hl
  · rw [List.getElem?_eq_none hl] at h; cases h

theorem Traced.Inv_update (g : Traced) (h : g.Inv) (i : Nat) (f : Transaction → Transaction)
    (hf : ∀ t, (f t).trans_id_ = t.trans_id_) :
    Traced.Inv { w := (g.w.update i f).2, log := g.log, src := g.src } := by
  cases hi : g.w.objs[i]? with
  | none =>
    have e : (g.w.update i f).2 = g.w := by simp [World.update, hi]
    rw [e]; exact h
  | some t =>
    have e : (g.w.update i f).2 = { g.w with objs := g.w.objs.set i (f t), heap := g.w.heap } := by
      simp [World.update, hi]
    rw [e]
    exact Traced.Inv_frame g _ h rfl rfl rfl (by simp) (World.idOf_set g.w i t (f t) _ hi (hf t))

theorem Traced.Inv_step (g : Traced) (c : Call) (h : g.Inv) : (g.step c).Inv := by
  cases c with
  | New creator type res price minfrac =>
    refine Traced.Inv_push g _ h (Transaction.ctor g.w.heap creator type res price minfrac).1
      g.w.objs.length rfl rfl rfl rfl ?_
    intro k hk
    rw [ctor_trans_id] at hk
    cases hk
  | Clone i =>
    cases hi : g.w.objs[i]? with
    | none =>
      have e : g.step (Call.Clone i) = g := by
        simp [Traced.step, World.step, hi]
      rw [e]; exact h
    | some t =>
      have e : g.step (Call.Clone i)
          = { w := { g.w with objs := g.w.objs ++ [(t.Clone g.w.heap).1],
                              heap := (t.Clone g.w.heap).2 },
              log := g.log, src := g.src ++ [g.src.getD i i] } := by
        simp [Traced.step, World.step, hi]
      rw [e]
      refine Traced.Inv_push g _ h (t.Clone g.w.heap).1 (g.src.getD i i) rfl rfl rfl rfl ?_
      intro k hk
      rw [Clone_trans_id] at hk
      have hid : g.w.idOf i = some k := by simp [World.idOf, hi, hk]
      obtain ⟨x, y, hm, hs⟩ := h.2.2.2 i k hid
      refine ⟨x, y, hm, ?_⟩
      rcases hs with hs | hs
      · left; simp [hs]
      · right; simp [hs]
  | MatchWith i j =>
    rcases World.MatchWith_cases g.w i j with ⟨⟨e, he⟩, hw⟩ | ⟨a, b, a1, b1, hi, hj, hne, hok, hw, ha, hb⟩
    · have e2 : g.step (Call.MatchWith i j) = g := by
        simp [Traced.step, World.step, he, hw]
      rw [e2]; exact h
    · have hil := getElem?_lt _ _ _ hi
      have hjl := getElem?_lt _ _ _ hj
      have hid : (g.w.MatchWith i j).2.idOf i = some g.w.next_trans_id_ := by
        rw [hw, World.idOf_match g.w i j a1 b1 _ hne hil hjl ha hb i]
        simp
      have e2 : g.step (Call.MatchWith i j)
          = { w := { g.w with objs := (g.w.objs.set i a1).set j b1,
                              next_trans_id_ := wrapInt (g.w.next_trans_id_ + 1) },
              log := g.log ++ [(some g.w.next_trans_id_, i, j)],
              src := (g.src.set i i).set j j } := by
        simp only [Traced.step, World.step, hok, hid]
        rw [hw]
      rw [e2]
      exact Traced.Inv_match g h i j a1 b1 hne hil hjl ha hb
  | SetCommod i c =>
    exact Traced.Inv_update g h i _ (fun _ => rfl)
  | SetPrice i p =>
    exact Traced.Inv_update g h i _ (fun _ => rfl)
  | SetMinFrac i m =>
    exact Traced.Inv_update g h i _ (fun _ => rfl)
  | SetResource i r =>
    cases hi : g.w.objs[i]? with
    | none =>
      have e : g.step (Call.SetResource i r) = g := by
        simp [Traced.step, World.step, hi]
      rw [e]; exact h
    | some t =>
      have e : g.step (Call.SetResource i r)
          = { w := { g.w with objs := g.w.objs.set i (t.SetResource g.w.heap r).1,
                              heap := (t.SetResource g.w.heap r).2 },
              log := g.log, src := g.src } := by
        simp [Traced.step, World.step, hi]
      rw [e]
      exact Traced.Inv_frame g _ h rfl rfl rfl (by simp)
        (World.idOf_set g.w i t _ _ hi (SetResource_trans_id t g.w.heap r))

theorem Traced.Inv_run (cs : List Call) : ∀ g : Traced, g.Inv → (g.run cs).Inv := by
  induction cs with
  | nil => intro g h; exact h
  | cons c cs ih => intro g h; exact ih _ (Traced.Inv_step g c h)

theorem Traced.Inv_initial : Traced.initial.Inv := by
  refine ⟨rfl, rfl, rfl, ?_⟩
  intro i k hk
  simp [Traced.initial, World.initial, World.idOf] at hk

theorem Traced.step_w (g : Traced) (c : Call) : (g.step c).w = (g.w.step c).2 := by
  cases c <;> simp only [Traced.step] <;> split <;> rfl

theorem Traced.run_w (cs : List Call) : ∀ g : Traced, (g.run cs).w = g.w.run cs := by
  induction cs with
  | nil => intro g; rfl
  | cons c cs ih =>
    intro g
    simp only [Traced.run, World.run]
    rw [ih, Traced.step_w]

theorem World.step_error (w : World) (c : Call) (e : Exn) (h : (w.step c).1 = .error e) :
    (w.step c).2 = w := by
  cases c with
  | New creator type res price minfrac => simp [World.step] at h
  | Clone i =>
    cases hi : w.objs[i]? with
    | none => simp [World.step, hi]
    | some t => simp [World.step, hi] at h
  | MatchWith i j =>
    rcases World.MatchWith_cases w i j with ⟨_, hw⟩ | ⟨a, b, a1, b1, _, _, _, hok, _⟩
    · exact hw
    · simp only [World.step] at h
      rw [hok] at h; cases h
  | SetCommod i c =>
    cases hi : w.objs[i]? with
    | none => simp [World.step, World.update, hi]
    | some t => simp [World.step, World.update, hi] at h
  | SetPrice i p =>
    cases hi : w.objs[i]? with
    | none => simp [World.step, World.update, hi]
    | some t => simp [World.step, World.update, hi] at h
  | SetMinFrac i m =>
    cases hi : w.objs[i]? with
    | none => simp [World.step, World.update, hi]
    | some t => simp [World.step, World.update, hi] at h
  | SetResource i r =>
    cases hi : w.objs[i]? with
    | none => simp [World.step, hi]
    | some t => simp [World.step, hi] at h

theorem Traced.run_append (l1 l2 : List Call) :
    ∀ g : Traced, g.run (l1 ++ l2) = (g.run l1).run l2 := by
  induction l1 with
  | nil => intro g; rfl
  | cons c cs ih => intro g; simp only [List.cons_append, Traced.run]; exact ih _

theorem World.MatchWith_offer_request (w : World) (a b : Transaction)
    (h0 : w.objs[0]? = some a) (h1 : w.objs[1]? = some b)
    (ha : a.type_ = TransType.OFFER) (hb : b.type_ = TransType.REQUEST) :
    (w.MatchWith 0 1).1 = .ok ()
      ∧ (∃ a1 b1, (w.MatchWith 0 1).2.objs[0]? = some a1 ∧ (w.MatchWith 0 1).2.objs[1]? = some b1
          ∧ a1.type_ = TransType.OFFER ∧ b1.type_ = TransType.REQUEST) := by
  have l0 := getElem?_lt _ _ _ h0
  have l1 := getElem?_lt _ _ _ h1
  have e : Transaction.MatchWith { self := a, other := b, next_trans_id_ := w.next_trans_id_ }
      = (.ok (),
         { self := { a with requester_ := b.requester_, trans_id_ := some w.next_trans_id_ },
           other := { b with supplier_ := a.supplier_, trans_id_ := some w.next_trans_id_ },
           next_trans_id_ := wrapInt (w.next_trans_id_ + 1) }) := by
    simp [Transaction.MatchWith, ha, hb, Transaction.supplier, Transaction.requester]
  have ew : w.MatchWith 0 1
      = (.ok (),
         { w with
           objs := (w.objs.set 0
             { a with requester_ := b.requester_, trans_id_ := some w.next_trans_id_ }).set 1
             { b with supplier_ := a.supplier_, trans_id_ := some w.next_trans_id_ },
           next_trans_id_ := wrapInt (w.next_trans_id_ + 1) }) := by
    simp only [World.MatchWith, h0, h1, e]
  rw [ew]
  refine ⟨rfl, { a with requester_ := b.requester_, trans_id_ := some w.next_trans_id_ },
    { b with supplier_ := a.supplier_, trans_id_ := some w.next_trans_id_ }, ?_, ?_, ha, hb⟩
  · show ((w.objs.set 0 _).set 1 _)[0]? = some _
    rw [List.getElem?_set_ne (by decide), List.getElem?_set_self l0]
  · show ((w.objs.set 0 _).set 1 _)[1]? = some _
    rw [List.getElem?_set_self (by simpa using l1)]

/-- Matching the offer at 0 with the request at 1 over and over: every call succeeds and
adds one entry to the log. -/
theorem Traced.run_matches (m : Nat) :
    ∀ g : Traced,
      (∃ a b, g.w.objs[0]? = some a ∧ g.w.objs[1]? = some b
        ∧ a.type_ = TransType.OFFER ∧ b.type_ = TransType.REQUEST) →
      (g.run (List.replicate m (Call.MatchWith 0 1))).log.length = g.log.length + m
        ∧ ∀ e ∈ (g.run (List.replicate m (Call.MatchWith 0 1))).log,
            e ∈ g.log ∨ e.2 = (0, 1) := by
  induction m with
  | zero => intro g _; exact ⟨rfl, fun e he => Or.inl he⟩
  | succ m ih =>
    intro g hg
    obtain ⟨a, b, h0, h1, ha, hb⟩ := hg
    obtain ⟨hok, hn⟩ := World.MatchWith_offer_request g.w a b h0 h1 ha hb
    have es : g.step (Call.MatchWith 0 1)
        = { w := (g.w.MatchWith 0 1).2,
            log := g.log ++ [((g.w.MatchWith 0 1).2.idOf 0, 0, 1)],
            src := (g.src.set 0 0).set 1 1 } := by
      simp only [Traced.step, World.step, hok]
    obtain ⟨i1, i2⟩ := ih (g.step (Call.MatchWith 0 1)) (by rw [es]; exact hn)
    simp only [List.replicate_succ, Traced.run]
    refine ⟨?_, ?_⟩
    · rw [i1, es]; simp only [List.length_append, List.length_singleton]; omega
    · intro e he
      rcases i2 e he with h | h
      · rw [es] at h
        simp only [List.mem_append, List.mem_singleton] at h
        rcases h with h | h
        · exact Or.inl h
        · right; rw [h]
      · exact Or.inr h

/-- C4, as found in the code: the counter is an `int`.  After "new offer, new request"
and 2147483648 successful matches of the two, the last match (number 2147483648,
position 2147483647 of the log counted from 0) did not get the id 2147483648: the
counter had wrapped and the id is -2147483648, smaller than every earlier id. -/
theorem ids_wrap_around :
    (Traced.initial.run (matchRepeatedly 2147483648)).log[2147483647]?
      = some (some (-2147483648), 0, 1) := by
  have hP : ∃ a b, (Traced.initial.run
        [Call.New (some 1) TransType.OFFER none 5 0,
         Call.New (some 2) TransType.REQUEST none 5 0]).w.objs[0]? = some a
      ∧ (Traced.initial.run
        [Call.New (some 1) TransType.OFFER none 5 0,
         Call.New (some 2) TransType.REQUEST none 5 0]).w.objs[1]? = some b
      ∧ a.type_ = TransType.OFFER ∧ b.type_ = TransType.REQUEST :=
    ⟨_, _, rfl, rfl, rfl, rfl⟩
  obtain ⟨hlen, hmem⟩ := Traced.run_matches 2147483648 _ hP
  have hrun : Traced.initial.run (matchRepeatedly 2147483648)
      = (Traced.initial.run
          [Call.New (some 1) TransType.OFFER none 5 0,
           Call.New (some 2) TransType.REQUEST none 5 0]).run
          (List.replicate 2147483648 (Call.MatchWith 0 1)) :=
    Traced.run_append _ _ Traced.initial
  rw [← hrun] at hlen hmem
  have hlen2 : (Traced.initial.run (matchRepeatedly 2147483648)).log.length = 2147483648 := by
    rw [hlen]; rfl
  obtain ⟨_, _, h3, _⟩ :=
    Traced.Inv_run (matchRepeatedly 2147483648) Traced.initial Traced.Inv_initial
  have hlt : 2147483647 < (Traced.initial.run (matchRepeatedly 2147483648)).log.length := by
    rw [hlen2]; decide
  obtain ⟨e, he⟩ : ∃ e, (Traced.initial.run (matchRepeatedly 2147483648)).log[2147483647]?
      = some e := ⟨_, List.getElem?_eq_getElem hlt⟩
  have h1 : e.1 = some (wrapInt (((2147483647 : Nat) : Int) + 1)) := by
    apply wrappedIds_getElem? (Traced.initial.run (matchRepeatedly 2147483648)).log.length
    rw [← h3, List.getElem?_map, he]; rfl
  have h1b : e.1 = some (-2147483648) := by
    rw [h1]; decide
  have h2 : e.2 = (0, 1) := by
    rcases hmem e (List.getElem?_mem he) with h | h
    · exact absurd h (List.not_mem_nil e)
    · exact h
  rw [he]
  obtain ⟨e1, e2⟩ := e
  simp only at h1b h2
  rw [h1b, h2]

/-- C4, amended: from the initial state (counter 1), after any sequence of calls, failing
ones included, in which at most `INT_MAX` = 2147483647 matches succeeded, the successful
matches got the ids `1, 2, 3, ...` in order: the match at position `p` of the log
(counted from 0) got id `p + 1`, so a later match has a strictly greater id than an
earlier one; the counter is 1 plus the number of successful matches while that number
is below `INT_MAX`, and a failing call leaves the whole state, the counter included, as
it was. -/
theorem ids_count_up (cs : List Call)
    (hr : (Traced.initial.run cs).log.length ≤ 2147483647) :
    (Traced.initial.run cs).w = World.initial.run cs
      ∧ (Traced.initial.run cs).log.map (fun e => e.1)
          = firstIds (Traced.initial.run cs).log.length
      ∧ (∀ (p : Nat) (e : Option Int × Nat × Nat),
          (Traced.initial.run cs).log[p]? = some e → e.1 = some ((p : Int) + 1))
      ∧ (∀ (p q : Nat) (e1 e2 : Option Int × Nat × Nat), p < q →
          (Traced.initial.run cs).log[p]? = some e1 →
          (Traced.initial.run cs).log[q]? = some e2 →
          ∃ k1 k2 : Int, e1.1 = some k1 ∧ e2.1 = some k2 ∧ k1 < k2)
      ∧ ((Traced.initial.run cs).log.length < 2147483647 →
          (World.initial.run cs).next_trans_id_
            = 1 + ((Traced.initial.run cs).log.length : Int))
      ∧ (World.initial.run cs).next_trans_id_
          = wrapInt (1 + ((Traced.initial.run cs).log.length : Int))
      ∧ ∀ (w : World) (c : Call) (e : Exn), (w.step c).1 = .error e → (w.step c).2 = w := by
  obtain ⟨_, h2, h3w, _⟩ := Traced.Inv_run cs Traced.initial Traced.Inv_initial
  have h3 : (Traced.initial.run cs).log.map (fun e => e.1)
      = firstIds (Traced.initial.run cs).log.length := by
    rw [h3w]; exact wrappedIds_eq_firstIds _ hr
  have hw : (Traced.initial.run cs).w = World.initial.run cs := Traced.run_w cs Traced.initial
  have hp : ∀ (p : Nat) (e : Option Int × Nat × Nat),
      (Traced.initial.run cs).log[p]? = some e → e.1 = some ((p : Int) + 1) := by
    intro p e he
    apply firstIds_getElem? (Traced.initial.run cs).log.length
    rw [← h3, List.getElem?_map, he]; rfl
  refine ⟨hw, h3, hp, ?_, ?_, ?_, World.step_error⟩
  · intro p q e1 e2 hpq he1 he2
    refine ⟨(p : Int) + 1, (q : Int) + 1, hp p e1 he1, hp q e2 he2, ?_⟩
    omega
  · intro hlt
    rw [← hw, h2]
    unfold wrapInt
    omega
  · rw [← hw]; exact h2

theorem ids_count_up_witness :
    (Traced.initial.run cloneAfterMatch).log.map (fun e => e.1)
      = firstIds (Traced.initial.run cloneAfterMatch).log.length :=
  (ids_count_up cloneAfterMatch (by decide)).2.1

theorem src_self_step (g : Traced) (c : Call) (h : g.Inv) (hc : c.isClone = false)
    (hs : ∀ p, p < g.src.length → g.src[p]? = some p) :
    ∀ p, p < (g.step c).src.length → (g.step c).src[p]? = some p := by
  cases c with
  | Clone i => simp [Call.isClone] at hc
  | New creator type res price minfrac =>
    intro p hp
    have e : (g.step (Call.New creator type res price minfrac)).src
        = g.src ++ [g.w.objs.length] := rfl
    rw [e] at hp ⊢
    simp only [List.length_append, List.length_singleton] at hp
    rcases Nat.lt_or_ge p g.src.length with hl | hl
    · rw [List.getElem?_append_left hl]; exact hs p hl
    · have : p = g.src.length := by omega
      subst this
      rw [List.getElem?_concat_length, h.1]
  | MatchWith i j =>
    have e : (g.step (Call.MatchWith i j)).src = g.src
        ∨ (g.step (Call.MatchWith i j)).src = (g.src.set i i).set j j := by
      simp only [Traced.step]
      split <;> simp_all
    intro p hp
    rcases e with e | e
    · rw [e] at hp ⊢; exact hs p hp
    · rw [e] at hp ⊢
      simp only [List.length_set] at hp
      by_cases ej : j = p
      · subst ej; rw [List.getElem?_set_self (by simpa using hp)]
      · rw [List.getElem?_set_ne ej]
        by_cases ei : i = p
        · subst ei; rw [List.getElem?_set_self hp]
        · rw [List.getElem?_set_ne ei]; exact hs p hp
  | SetCommod i c => exact hs
  | SetPrice i x => exact hs
  | SetMinFrac i m => exact hs
  | SetResource i r =>
    have e : (g.step (Call.SetResource i r)).src = g.src := by
      simp only [Traced.step]
    rw [e]; exact hs

theorem src_self_run (cs : List Call) :
    ∀ g : Traced, g.Inv → (∀ c ∈ cs, c.isClone = false) →
      (∀ p, p < g.src.length → g.src[p]? = some p) →
      ∀ p, p < (g.run cs).src.length → (g.run cs).src[p]? = some p := by
  induction cs with
  | nil => intro g _ _ hs; exact hs
  | cons c cs ih =>
    intro g h hc hs
    exact ih (g.step c) (Traced.Inv_step g c h) (fun d hd => hc d (List.mem_cons_of_mem _ hd))
      (src_self_step g c h (hc c (List.mem_cons_self _ _)) hs)

/-- C5, as found in the code: `Clone` copies `trans_id_`.  After the calls "new offer,
new request, match them, clone the offer", the offer (object 0) and its clone (object 2)
hold the same id 1, and they are not the two sides of a match. -/
theorem clone_shares_id : ¬ IdSharedOnlyBySides (Traced.initial.run cloneAfterMatch) := by
  intro h
  have h1 := h 0 2 1 (by decide) (by decide) (by decide)
  revert h1
  decide

/-- C5, amended: in every state reached from the initial state by any sequence of
constructor, `MatchWith`, `Clone` and setter calls, two distinct transactions hold the
same assigned id only when both got it from one and the same match: each of them is a
side of that match, or a copy made by `Clone` of a side.  When the sequence has no
`Clone`, the two transactions are the two sides of that match. -/
theorem ids_shared_only_through_one_match (cs : List Call)
    (hr : (Traced.initial.run cs).log.length ≤ 2147483647) :
    IdSharedOnlyBySidesOrCopies (Traced.initial.run cs)
      ∧ ((∀ c ∈ cs, c.isClone = false) → IdSharedOnlyBySides (Traced.initial.run cs)) := by
  have hinv := Traced.Inv_run cs Traced.initial Traced.Inv_initial
  obtain ⟨h1, _, h3w, h4⟩ := hinv
  have h3 : (Traced.initial.run cs).log.map (fun e => e.1)
      = firstIds (Traced.initial.run cs).log.length := by
    rw [h3w]; exact wrappedIds_eq_firstIds _ hr
  have main : IdSharedOnlyBySidesOrCopies (Traced.initial.run cs) := by
    intro i j k _ hi hj
    obtain ⟨x, y, hm, hs⟩ := h4 i k hi
    obtain ⟨x2, y2, hm2, hs2⟩ := h4 j k hj
    have e := log_entry_unique _ h3 _ _ hm hm2 rfl
    simp only [Prod.mk.injEq, true_and] at e
    obtain ⟨ex, ey⟩ := e
    subst ex; subst ey
    refine ⟨x, y, hm, ?_, hs, hs2⟩
    intro x1 y1 hm1
    have e1 := log_entry_unique _ h3 _ _ hm1 hm rfl
    simp only [Prod.mk.injEq, true_and] at e1
    exact e1
  refine ⟨main, ?_⟩
  intro hc i j k hne hi hj
  have hsrc := src_self_run cs Traced.initial Traced.Inv_initial hc
    (by intro p hp; simp [Traced.initial] at hp)
  obtain ⟨x, y, hm, _, hs, hs2⟩ := main i j k hne hi hj
  have hil := World.idOf_lt _ _ _ hi
  have hjl := World.idOf_lt _ _ _ hj
  rw [← h1] at hil hjl
  rw [hsrc i hil] at hs
  rw [hsrc j hjl] at hs2
  simp only [Option.some.injEq] at hs hs2
  rcases hs with hs | hs <;> rcases hs2 with hs2 | hs2
  · exact absurd (hs.trans hs2.symm) hne
  · left; rw [hs, hs2]; exact hm
  · right; rw [hs, hs2]; exact hm
  · exact absurd (hs.trans hs2.symm) hne

theorem ids_shared_only_through_one_match_witness :
    IdSharedOnlyBySides (Traced.initial.run
      [Call.New (some 1) TransType.OFFER none 5 0,
       Call.New (some 2) TransType.REQUEST none 5 0,
       Call.MatchWith 0 1]) :=
  (ids_shared_only_through_one_match
      [Call.New (some 1) TransType.OFFER none 5 0,
       Call.New (some 2) TransType.REQUEST none 5 0,
       Call.MatchWith 0 1] (by decide)).2 (by decide)

/-! ## Matching: symmetry and frame -/

/-- C17: for two transactions of opposite type and a counter value `n`, `a.MatchWith(b)`
and `b.MatchWith(a)` run from the same state both succeed and leave the same `a`, the
same `b` and the same counter. -/
theorem MatchWith_symmetric (a b : Transaction) (n : Int) (h : a.type_ ≠ b.type_) :
    (Transaction.MatchWith { self := a, other := b, next_trans_id_ := n }).1
        = (Transaction.MatchWith { self := b, other := a, next_trans_id_ := n }).1
      ∧ (Transaction.MatchWith { self := a, other := b, next_trans_id_ := n }).2.self
          = (Transaction.MatchWith { self := b, other := a, next_trans_id_ := n }).2.other
      ∧ (Transaction.MatchWith { self := a, other := b, next_trans_id_ := n }).2.other
          = (Transaction.MatchWith { self := b, other := a, next_trans_id_ := n }).2.self
      ∧ (Transaction.MatchWith { self := a, other := b, next_trans_id_ := n }).2.next_trans_id_
          = (Transaction.MatchWith { self := b, other := a, next_trans_id_ := n }).2.next_trans_id_
      ∧ (Transaction.MatchWith { self := a, other := b, next_trans_id_ := n }).1 = .ok () := by
  obtain ⟨ta, sa, qa, ra, ca, pa, ma, ia⟩ := a
  obtain ⟨tb, sb, qb, rb, cb, pb, mb, ib⟩ := b
  cases ta <;> cases tb <;>
    simp [Transaction.MatchWith, Transaction.supplier, Transaction.requester] at h ⊢

theorem MatchWith_symmetric_witness :
    (Transaction.MatchWith
        { self := (Transaction.ctor [] (some 1) TransType.OFFER none 5 0).1,
          other := (Transaction.ctor [] (some 2) TransType.REQUEST none 7 0).1,
          next_trans_id_ := 3 }).2.self
      = (Transaction.MatchWith
        { self := (Transaction.ctor [] (some 2) TransType.REQUEST none 7 0).1,
          other := (Transaction.ctor [] (some 1) TransType.OFFER none 5 0).1,
          next_trans_id_ := 3 }).2.other :=
  (MatchWith_symmetric (Transaction.ctor [] (some 1) TransType.OFFER none 5 0).1
    (Transaction.ctor [] (some 2) TransType.REQUEST none 7 0).1 3 (by decide)).2.1

/-- C18: for two transactions of opposite type, `a.MatchWith(b)` leaves the type, price,
minfrac, commodity and held resource of `a` and of `b` as they were, and also the
supplier of the offer side and the requester of the request side; the final `a` and `b`
are the old ones with only `trans_id_` and the requester of the offer, the supplier of
the request, replaced. -/
theorem MatchWith_frame (a b : Transaction) (n : Int) (h : a.type_ ≠ b.type_) :
    ((Transaction.MatchWith { self := a, other := b, next_trans_id_ := n }).2.self.type_ = a.type_
      ∧ (Transaction.MatchWith { self := a, other := b, next_trans_id_ := n }).2.self.price = a.price
      ∧ (Transaction.MatchWith { self := a, other := b, next_trans_id_ := n }).2.self.Minfrac
          = a.Minfrac
      ∧ (Transaction.MatchWith { self := a, other := b, next_trans_id_ := n }).2.self.commod
          = a.commod
      ∧ (Transaction.MatchWith { self := a, other := b, next_trans_id_ := n }).2.self.resource
          = a.resource)
    ∧ ((Transaction.MatchWith { self := a, other := b, next_trans_id_ := n }).2.other.type_ = b.type_
      ∧ (Transaction.MatchWith { self := a, other := b, next_trans_id_ := n }).2.other.price = b.price
      ∧ (Transaction.MatchWith { self := a, other := b, next_trans_id_ := n }).2.other.Minfrac
          = b.Minfrac
      ∧ (Transaction.MatchWith { self := a, other := b, next_trans_id_ := n }).2.other.commod
          = b.commod
      ∧ (Transaction.MatchWith { self := a, other := b, next_trans_id_ := n }).2.other.resource
          = b.resource)
    ∧ (if a.type_ = TransType.OFFER then
        (Transaction.MatchWith { self := a, other := b, next_trans_id_ := n }).2.self
            = { a with requester_ := b.requester_, trans_id_ := some n }
          ∧ (Transaction.MatchWith { self := a, other := b, next_trans_id_ := n }).2.other
            = { b with supplier_ := a.supplier_, trans_id_ := some n }
      else
        (Transaction.MatchWith { self := a, other := b, next_trans_id_ := n }).2.self
            = { a with supplier_ := b.supplier_, trans_id_ := some n }
          ∧ (Transaction.MatchWith { self := a, other := b, next_trans_id_ := n }).2.other
            = { b with requester_ := a.requester_, trans_id_ := some n }) := by
  obtain ⟨ta, sa, qa, ra, ca, pa, ma, ia⟩ := a
  obtain ⟨tb, sb, qb, rb, cb, pb, mb, ib⟩ := b
  cases ta <;> cases tb <;>
    simp [Transaction.MatchWith, Transaction.supplier, Transaction.requester, Transaction.price,
      Transaction.Minfrac, Transaction.commod, Transaction.resource] at h ⊢

theorem MatchWith_frame_witness :
    (Transaction.MatchWith
        { self := (Transaction.ctor [] (some 1) TransType.OFFER none 5 0).1,
          other := (Transaction.ctor [] (some 2) TransType.REQUEST none 7 0).1,
          next_trans_id_ := 3 }).2.other.price
      = Transaction.price (Transaction.ctor [] (some 2) TransType.REQUEST none 7 0).1 :=
  (MatchWith_frame (Transaction.ctor [] (some 1) TransType.OFFER none 5 0).1
    (Transaction.ctor [] (some 2) TransType.REQUEST none 7 0).1 3 (by decide)).2.1.2.1

/-! ## The null resource -/

/-- C20: `SetResource` with a null resource changes nothing: the transaction and the
resource heap are what they were (no clone is made).  So a transaction constructed with a
null resource holds a null resource, and its `Clone` holds a null resource too, again
without any allocation. -/
theorem SetResource_null_noop (t : Transaction) (h : Heap) :
    t.SetResource h none = (t, h)
      ∧ (∀ (creator : ModelPtr) (type : TransType) (p m : Double),
          (Transaction.ctor h creator type none p m).1.resource = none
            ∧ (Transaction.ctor h creator type none p m).2 = h
            ∧ ∀ h2 : Heap,
                ((Transaction.ctor h creator type none p m).1.Clone h2).1.resource = none
                  ∧ ((Transaction.ctor h creator type none p m).1.Clone h2).2 = h2)
      ∧ (t.resource = none → (t.Clone h).1 = t ∧ (t.Clone h).2 = h) := by
  refine ⟨rfl, ?_, ?_⟩
  · intro creator type p m
    cases type <;>
      simp [Transaction.ctor, Transaction.SetResource, Transaction.Clone, Transaction.resource]
  · intro hr
    simp only [Transaction.resource] at hr
    simp [Transaction.Clone, Transaction.SetResource, hr]

theorem SetResource_null_noop_witness :
    ({ sampleMatched with resource_ := none }.Clone [10, 20]).1
      = { sampleMatched with resource_ := none } :=
  ((SetResource_null_noop { sampleMatched with resource_ := none } [10, 20]).2.2 rfl).1

/-! ## Settlement: failure of the addition, and the setters afterwards -/

/-- C11, as found in the code: nothing is frozen by settlement.  `ApproveTransfer`
completes on the sample transaction (price 5), and `SetPrice(9)` after it changes the
price to 9. -/
theorem setters_not_frozen : ¬ FrozenAfterSettlement sampleEnv sampleMatched [] [] := by
  intro h
  have h1 := (h (SetterCall.SetPrice 9) (sampleMatched.SetPrice 9) [] rfl).1
  revert h1
  decide

/-- C11, amended: after `ApproveTransfer` has completed on `t`, the setters act as they
do before it.  `SetPrice(p)` leaves `price() == p`, `SetMinFrac(m)` leaves
`Minfrac() == m`, `SetCommod(c)` leaves `commod() == c`, each changing no other field;
`SetResource(r)` with `r` not null replaces the held resource by the clone of `r` and
changes no other field, and with `r` null changes nothing. -/
theorem setters_act_after_settlement (env : Env) (t : Transaction) (h : Heap)
    (tr : List Action) (hs : (t.ApproveTransfer env tr).1 = .ok ()) :
    (∀ p, (t.settleThenSet env h tr (SetterCall.SetPrice p)).1
        = .ok ({ t with price_ := p }, h))
      ∧ (∀ m, (t.settleThenSet env h tr (SetterCall.SetMinFrac m)).1
        = .ok ({ t with minfrac_ := m }, h))
      ∧ (∀ c, (t.settleThenSet env h tr (SetterCall.SetCommod c)).1
        = .ok ({ t with commod_ := c }, h))
      ∧ (∀ r, (t.settleThenSet env h tr (SetterCall.SetResource (some r))).1
        = .ok ({ t with resource_ := some (Resource.Clone h r).1 }, (Resource.Clone h r).2))
      ∧ (t.settleThenSet env h tr (SetterCall.SetResource none)).1 = .ok (t, h)
      ∧ (∀ p, ({ t with price_ := p } : Transaction).price = p)
      ∧ (∀ m, ({ t with minfrac_ := m } : Transaction).Minfrac = m)
      ∧ ∀ c, ({ t with commod_ := c } : Transaction).commod = c := by
  have key : ∀ c, (t.settleThenSet env h tr c).1 = .ok (t.applySetter h c) := by
    intro c
    unfold Transaction.settleThenSet
    split
    · rfl
    · rename_i e tr2 heq
      rw [heq] at hs
      cases hs
  refine ⟨fun p => key _, fun m => key _, fun c => key _, fun r => key _, key _,
    fun _ => rfl, fun _ => rfl, fun _ => rfl⟩

theorem setters_act_after_settlement_witness :
    (sampleMatched.settleThenSet sampleEnv [] [] (SetterCall.SetPrice 9)).1
      = .ok ({ sampleMatched with price_ := 9 }, []) :=
  (setters_act_after_settlement sampleEnv sampleMatched [] [] rfl).1 9

/-! ## The exchange context -/

theorem requestsOf_append (a b : List RequestPortfolio) :
    requestsOf (a ++ b) = requestsOf a ++ requestsOf b := by
  induction a with
  | nil => rfl
  | cons p ps ih => simp [requestsOf, ih]

theorem bidsOf_append (a b : List BidPortfolio) : bidsOf (a ++ b) = bidsOf a ++ bidsOf b := by
  induction a with
  | nil => rfl
  | cons p ps ih => simp [bidsOf, ih]

theorem ExchangeContext.Extends_refl (ctx : ExchangeContext) : ctx.Extends ctx [] [] := by
  simp [ExchangeContext.Extends, requestsOf, bidsOf]

theorem ExchangeContext.Extends_trans (c1 c2 c3 : ExchangeContext)
    (r1 r2 : List RequestPortfolio) (b1 b2 : List BidPortfolio)
    (h1 : c1.Extends c2 r1 b1) (h2 : c2.Extends c3 r2 b2) :
    c1.Extends c3 (r1 ++ r2) (b1 ++ b2) := by
  obtain ⟨a1, a2, a3, a4, a5, a6, a7⟩ := h1
  obtain ⟨e1, e2, e3, e4, e5, e6, e7⟩ := h2
  refine ⟨?_, ?_, ?_, ?_, ?_, ?_, ?_⟩
  · rw [e1, a1, List.append_assoc]
  · rw [e2, a2, List.append_assoc]
  · intro c; rw [e3, a3, requestsOf_append, List.filter_append, List.append_assoc]
  · intro c; rw [e4, a4, bidsOf_append, List.filter_append, List.append_assoc]
  · intro r; rw [e5, a5, bidsOf_append, List.filter_append, List.append_assoc]
  · rw [e6, a6, requestsOf_append, List.map_append, List.toFinset_append, Finset.union_assoc]
  · rw [e7, a7, bidsOf_append, List.map_append, List.toFinset_append, Finset.union_assoc]

theorem foldl_AddRequest (rs : List Request) :
    ∀ ctx : ExchangeContext,
      (rs.foldl ExchangeContext.AddRequest ctx).requests = ctx.requests
        ∧ (rs.foldl ExchangeContext.AddRequest ctx).bids = ctx.bids
        ∧ (∀ c, (rs.foldl ExchangeContext.AddRequest ctx).RequestsForCommod c
            = ctx.RequestsForCommod c ++ rs.filter (fun r => r.commodity = c))
        ∧ (rs.foldl ExchangeContext.AddRequest ctx).BidsForCommod = ctx.BidsForCommod
        ∧ (rs.foldl ExchangeContext.AddRequest ctx).BidsForRequest = ctx.BidsForRequest
        ∧ (rs.foldl ExchangeContext.AddRequest ctx).requesters
            = ctx.requesters ∪ (rs.map (fun r => r.requester)).toFinset
        ∧ (rs.foldl ExchangeContext.AddRequest ctx).bidders = ctx.bidders := by
  induction rs with
  | nil => intro ctx; simp
  | cons r rs ih =>
    intro ctx
    obtain ⟨h1, h2, h3, h4, h5, h6, h7⟩ := ih (ctx.AddRequest r)
    simp only [List.foldl_cons]
    refine ⟨h1, h2, ?_, h4, h5, ?_, h7⟩
    · intro c
      rw [h3 c]
      by_cases hc : c = r.commodity
      · simp [ExchangeContext.AddRequest, hc]
      · have hc2 : ¬ r.commodity = c := fun e => hc e.symm
        simp [ExchangeContext.AddRequest, hc, hc2]
    · rw [h6]
      simp only [ExchangeContext.AddRequest, List.map_cons, List.toFinset_cons]
      ext x
      simp only [Finset.mem_union, Finset.mem_insert]
      tauto

theorem foldl_AddBid (bs : List Bid) :
    ∀ ctx : ExchangeContext,
      (bs.foldl ExchangeContext.AddBid ctx).requests = ctx.requests
        ∧ (bs.foldl ExchangeContext.AddBid ctx).bids = ctx.bids
        ∧ (bs.foldl ExchangeContext.AddBid ctx).RequestsForCommod = ctx.RequestsForCommod
        ∧ (∀ c, (bs.foldl ExchangeContext.AddBid ctx).BidsForCommod c
            = ctx.BidsForCommod c ++ bs.filter (fun b => b.request.commodity = c))
        ∧ (∀ r, (bs.foldl ExchangeContext.AddBid ctx).BidsForRequest r
            = ctx.BidsForRequest r ++ bs.filter (fun b => b.request = r))
        ∧ (bs.foldl ExchangeContext.AddBid ctx).requesters = ctx.requesters
        ∧ (bs.foldl ExchangeContext.AddBid ctx).bidders
            = ctx.bidders ∪ (bs.map (fun b => b.bidder)).toFinset := by
  induction bs with
  | nil => intro ctx; simp
  | cons b bs ih =>
    intro ctx
    obtain ⟨h1, h2, h3, h4, h5, h6, h7⟩ := ih (ctx.AddBid b)
    simp only [List.foldl_cons]
    refine ⟨h1, h2, h3, ?_, ?_, h6, ?_⟩
    · intro c
      rw [h4 c]
      by_cases hc : c = b.request.commodity
      · simp [ExchangeContext.AddBid, hc]
      · have hc2 : ¬ b.request.commodity = c := fun e => hc e.symm
        simp [ExchangeContext.AddBid, hc, hc2]
    · intro r
      rw [h5 r]
      by_cases hr : r = b.request
      · simp [ExchangeContext.AddBid, hr]
      · have hr2 : ¬ b.request = r := fun e => hr e.symm
        simp [ExchangeContext.AddBid, hr, hr2]
    · rw [h7]
      simp only [ExchangeContext.AddBid, List.map_cons, List.toFinset_cons]
      ext x
      simp only [Finset.mem_union, Finset.mem_insert]
      tauto

theorem ExchangeContext.Extends_AddRequestPortfolio (ctx : ExchangeContext)
    (p : RequestPortfolio) : ctx.Extends (ctx.AddRequestPortfolio p) [p] [] := by
  obtain ⟨h1, h2, h3, h4, h5, h6, h7⟩ :=
    foldl_AddRequest p.requests { ctx with requests := ctx.requests ++ [p] }
  refine ⟨h1, ?_, ?_, ?_, ?_, ?_, ?_⟩
  · simp [ExchangeContext.AddRequestPortfolio, h2]
  · intro c; simp [ExchangeContext.AddRequestPortfolio, h3 c, requestsOf]
  · intro c; simp [ExchangeContext.AddRequestPortfolio, h4, bidsOf]
  · intro r; simp [ExchangeContext.AddRequestPortfolio, h5, bidsOf]
  · simp [ExchangeContext.AddRequestPortfolio, h6, requestsOf]
  · simp [ExchangeContext.AddRequestPortfolio, h7, bidsOf]

theorem ExchangeContext.Extends_AddBidPortfolio (ctx : ExchangeContext)
    (p : BidPortfolio) : ctx.Extends (ctx.AddBidPortfolio p) [] [p] := by
  obtain ⟨h1, h2, h3, h4, h5, h6, h7⟩ :=
    foldl_AddBid p.bids { ctx with bids := ctx.bids ++ [p] }
  refine ⟨?_, h2, ?_, ?_, ?_, ?_, ?_⟩
  · simp [ExchangeContext.AddBidPortfolio, h1]
  · intro c; simp [ExchangeContext.AddBidPortfolio, h3, requestsOf]
  · intro c; simp [ExchangeContext.AddBidPortfolio, h4 c, bidsOf]
  · intro r; simp [ExchangeContext.AddBidPortfolio, h5 r, bidsOf]
  · simp [ExchangeContext.AddBidPortfolio, h6, requestsOf]
  · simp [ExchangeContext.AddBidPortfolio, h7, bidsOf]

theorem ExchangeContext.Extends_publish (pubs : List Publication) :
    ∀ ctx : ExchangeContext,
      ctx.Extends (ctx.publish pubs) (requestPortfoliosOf pubs) (bidPortfoliosOf pubs) := by
  induction pubs with
  | nil => intro ctx; exact ExchangeContext.Extends_refl ctx
  | cons x xs ih =>
    intro ctx
    cases x with
    | Requests p =>
      have h := ExchangeContext.Extends_trans _ _ _ _ _ _ _
        (ExchangeContext.Extends_AddRequestPortfolio ctx p) (ih (ctx.AddRequestPortfolio p))
      simpa [ExchangeContext.publish, ExchangeContext.step, requestPortfoliosOf,
        bidPortfoliosOf] using h
    | Bids p =>
      have h := ExchangeContext.Extends_trans _ _ _ _ _ _ _
        (ExchangeContext.Extends_AddBidPortfolio ctx p) (ih (ctx.AddBidPortfolio p))
      simpa [ExchangeContext.publish, ExchangeContext.step, requestPortfoliosOf,
        bidPortfoliosOf] using h

theorem ExchangeContext.Extends_fresh (pubs : List Publication) :
    (ExchangeContext.fresh.publish pubs).requests = requestPortfoliosOf pubs
      ∧ (ExchangeContext.fresh.publish pubs).bids = bidPortfoliosOf pubs
      ∧ (∀ c, (ExchangeContext.fresh.publish pubs).RequestsForCommod c
          = (requestsOf (requestPortfoliosOf pubs)).filter (fun r => r.commodity = c))
      ∧ (∀ r, (ExchangeContext.fresh.publish pubs).BidsForRequest r
          = (bidsOf (bidPortfoliosOf pubs)).filter (fun b => b.request = r))
      ∧ (ExchangeContext.fresh.publish pubs).requesters
          = ((requestsOf (requestPortfoliosOf pubs)).map (fun r => r.requester)).toFinset
      ∧ (ExchangeContext.fresh.publish pubs).bidders
          = ((bidsOf (bidPortfoliosOf pubs)).map (fun b => b.bidder)).toFinset := by
  obtain ⟨h1, h2, h3, _, h5, h6, h7⟩ := ExchangeContext.Extends_publish pubs ExchangeContext.fresh
  refine ⟨?_, ?_, ?_, ?_, ?_, ?_⟩
  · simpa [ExchangeContext.fresh] using h1
  · simpa [ExchangeContext.fresh] using h2
  · intro c; simpa [ExchangeContext.fresh] using h3 c
  · intro r; simpa [ExchangeContext.fresh] using h5 r
  · simpa [ExchangeContext.fresh] using h6
  · simpa [ExchangeContext.fresh] using h7

theorem requestPortfoliosOf_map (ps : List RequestPortfolio) :
    requestPortfoliosOf (ps.map Publication.Requests) = ps := by
  induction ps with
  | nil => rfl
  | cons p ps ih => simp [requestPortfoliosOf, ih]

theorem bidPortfoliosOf_map (ps : List BidPortfolio) :
    bidPortfoliosOf (ps.map Publication.Bids) = ps
      ∧ requestPortfoliosOf (ps.map Publication.Bids) = [] := by
  induction ps with
  | nil => exact ⟨rfl, rfl⟩
  | cons p ps ih => simp [bidPortfoliosOf, requestPortfoliosOf, ih]

/-- C12: after the request portfolios `ps` are published, in this order, into a fresh
context, `requests()` is `ps`, and for every commodity `c`, `RequestsForCommod(c)` is the
sequence of all requests of `ps` (portfolio after portfolio, insertion order within a
portfolio) with the requests of another commodity left out; the same holds when bid
portfolios are published in between. -/
theorem RequestsForCommod_published (ps : List RequestPortfolio) :
    (ExchangeContext.fresh.publish (ps.map Publication.Requests)).requests = ps
      ∧ (∀ c, (ExchangeContext.fresh.publish (ps.map Publication.Requests)).RequestsForCommod c
          = (requestsOf ps).filter (fun r => r.commodity = c))
      ∧ (∀ c r, r ∈ (ExchangeContext.fresh.publish (ps.map Publication.Requests)).RequestsForCommod c
          → r.commodity = c ∧ r ∈ requestsOf ps)
      ∧ (∀ c r, r ∈ requestsOf ps → r.commodity = c →
          r ∈ (ExchangeContext.fresh.publish (ps.map Publication.Requests)).RequestsForCommod c)
      ∧ ∀ pubs : List Publication,
          (ExchangeContext.fresh.publish pubs).requests = requestPortfoliosOf pubs
            ∧ ∀ c, (ExchangeContext.fresh.publish pubs).RequestsForCommod c
                = (requestsOf (requestPortfoliosOf pubs)).filter (fun r => r.commodity = c) := by
  obtain ⟨h1, _, h3, _⟩ := ExchangeContext.Extends_fresh (ps.map Publication.Requests)
  rw [requestPortfoliosOf_map] at h1 h3
  refine ⟨h1, h3, ?_, ?_, ?_⟩
  · intro c r hr
    rw [h3 c, List.mem_filter] at hr
    exact ⟨by simpa using hr.2, hr.1⟩
  · intro c r hr hc
    rw [h3 c, List.mem_filter]
    exact ⟨hr, by simpa using hc⟩
  · intro pubs
    obtain ⟨g1, _, g3, _⟩ := ExchangeContext.Extends_fresh pubs
    exact ⟨g1, g3⟩

/-- C13: after any publications `pubs` into a fresh context, `bids()` is the sequence of
the bid portfolios of `pubs` in publication order, and for every request `r`,
`BidsForRequest(r)` is the sequence of all their bids (portfolio after portfolio) with
the bids for another request left out; publishing further bid portfolios `bps` into any
context appends `bps` to `bids()` and appends their bids for `r` after the bids for `r`
that were there. -/
theorem BidsForRequest_published (pubs : List Publication) :
    (ExchangeContext.fresh.publish pubs).bids = bidPortfoliosOf pubs
      ∧ (∀ r, (ExchangeContext.fresh.publish pubs).BidsForRequest r
          = (bidsOf (bidPortfoliosOf pubs)).filter (fun b => b.request = r))
      ∧ (∀ r b, b ∈ (ExchangeContext.fresh.publish pubs).BidsForRequest r
          ↔ b ∈ bidsOf (bidPortfoliosOf pubs) ∧ b.request = r)
      ∧ ∀ (ctx : ExchangeContext) (bps : List BidPortfolio),
          (ctx.publish (bps.map Publication.Bids)).bids = ctx.bids ++ bps
            ∧ ∀ r, (ctx.publish (bps.map Publication.Bids)).BidsForRequest r
                = ctx.BidsForRequest r ++ (bidsOf bps).filter (fun b => b.request = r) := by
  obtain ⟨_, h2, _, h4, _⟩ := ExchangeContext.Extends_fresh pubs
  refine ⟨h2, h4, ?_, ?_⟩
  · intro r b
    rw [h4 r, List.mem_filter]
    simp
  · intro ctx bps
    obtain ⟨_, g2, _, _, g5, _⟩ := ExchangeContext.Extends_publish (bps.map Publication.Bids) ctx
    rw [(bidPortfoliosOf_map bps).1] at g2 g5
    exact ⟨g2, g5⟩

theorem Double.eq_comm (a b : Double) : Double.eq a b = Double.eq b a := by
  unfold Double.eq
  have e : decide (a % 0x10000000000000000 = b % 0x10000000000000000)
      = decide (b % 0x10000000000000000 = a % 0x10000000000000000) :=
    decide_eq_decide.mpr ⟨Eq.symm, Eq.symm⟩
  rw [e, Bool.and_comm (Double.isZero a) (Double.isZero b),
    Bool.and_comm (!Double.isNaN a) (!Double.isNaN b)]

/-- The two zeros are equal as doubles though their bits differ, and a NaN is not equal
to itself though its bits are the same. -/
theorem Double.eq_examples :
    Double.eq 0x8000000000000000 0 = true ∧ Double.eq 0x7FF8000000000000 0x7FF8000000000000 = false
      ∧ Double.eq 0x3FE0000000000000 0x3FE0000000000000 = true := by
  decide

theorem prefSeqEq_getElem? (l1 l2 : List (Bid × Double)) (h : prefSeqEq l1 l2 = true) :
    ∀ (i : Nat) (x y : Bid × Double), l1[i]? = some x → l2[i]? = some y →
      x.1 = y.1 ∧ Double.eq x.2 y.2 = true := by
  induction l1 generalizing l2 with
  | nil =>
    intro i x y hx
    simp at hx
  | cons a l1 ih =>
    cases l2 with
    | nil => simp [prefSeqEq] at h
    | cons c l2 =>
      simp only [prefSeqEq, Bool.and_eq_true, decide_eq_true_eq] at h
      intro i x y hx hy
      cases i with
      | zero =>
        simp only [List.getElem?_cons_zero, Option.some.injEq] at hx hy
        rw [← hx, ← hy]
        exact ⟨h.1.1, h.1.2⟩
      | succ i =>
        simp only [List.getElem?_cons_succ] at hx hy
        exact ih l2 h.2 i x y hx hy

theorem PrefMap.eq_false_of_seq (m1 m2 : PrefMap) (k : Request) (hk : k ∈ m1.keys)
    (h : prefSeqEq (m1.seq k) (m2.seq k) = false) : PrefMap.eq m1 m2 = false := by
  unfold PrefMap.eq
  have h3 : m1.keys.all (fun r => prefSeqEq (m1.seq r) (m2.seq r)) = false := by
    rw [List.all_eq_false]
    exact ⟨k, hk, by simp [h]⟩
  rw [h3, Bool.and_false]

/-- The assertion `EXPECT_EQ(context.Prefs(req1->requester()), obs)` of test `AddBid1`. -/
theorem Prefs_addBid1_equal :
    PrefMap.eq ((ExchangeContext.fresh.publish addBid1).Prefs req1.requester) obsExpected
      = true := by
  decide

/-- C14: when request `r` was published and exactly one published bid `b` answers it,
`Prefs` of the requester of `r` maps `r` to the sequence `[(b, p)]` with `p` the
preference of `r` (and that sequence compares equal to `[(b, p)]` unless `p` is a NaN);
a preference map that has at `r` a preference not equal, as a double, to `p`, or that has
at any of its keys and any position a preference not equal to the one `Prefs` has there,
compares unequal to `Prefs`, in either order of the comparison. -/
theorem Prefs_single_bid (pubs : List Publication) (r : Request) (b : Bid)
    (hr : r ∈ requestsOf (requestPortfoliosOf pubs))
    (hb : (bidsOf (bidPortfoliosOf pubs)).filter (fun x => x.request = r) = [b]) :
    ((ExchangeContext.fresh.publish pubs).Prefs r.requester).get? r
        = some [(b, r.preference)]
      ∧ prefSeqEq (((ExchangeContext.fresh.publish pubs).Prefs r.requester).seq r)
          [(b, r.preference)] = !Double.isNaN r.preference
      ∧ (∀ (m : PrefMap) (p2 : Double), Double.eq p2 r.preference = false →
          m.get? r = some [(b, p2)] →
          PrefMap.eq m ((ExchangeContext.fresh.publish pubs).Prefs r.requester) = false
            ∧ PrefMap.eq ((ExchangeContext.fresh.publish pubs).Prefs r.requester) m = false)
      ∧ ∀ (m : PrefMap) (k : Request) (i : Nat) (x y : Bid × Double),
          k ∈ m.keys → (m.seq k)[i]? = some x →
          (((ExchangeContext.fresh.publish pubs).Prefs r.requester).seq k)[i]? = some y →
          Double.eq x.2 y.2 = false →
          PrefMap.eq m ((ExchangeContext.fresh.publish pubs).Prefs r.requester) = false := by
  obtain ⟨h1, _, _, h4, _⟩ := ExchangeContext.Extends_fresh pubs
  have hkey : r ∈ ((ExchangeContext.fresh.publish pubs).Prefs r.requester).keys := by
    simp only [ExchangeContext.Prefs, h1, List.mem_filter]
    exact ⟨hr, by simp⟩
  have hseq : ((ExchangeContext.fresh.publish pubs).Prefs r.requester).seq r
      = [(b, r.preference)] := by
    simp only [ExchangeContext.Prefs, h4 r, hb, List.map_cons, List.map_nil]
  refine ⟨?_, ?_, ?_, ?_⟩
  · simp only [PrefMap.get?, hkey, if_true, hseq]
  · rw [hseq]
    simp [prefSeqEq, Double.eq, Double.isNaN]
  · intro m p2 hp hm
    have hmk : r ∈ m.keys := by
      by_cases hk : r ∈ m.keys
      · exact hk
      · simp [PrefMap.get?, hk] at hm
    have hms : m.seq r = [(b, p2)] := by
      simp only [PrefMap.get?, hmk, if_true, Option.some.injEq] at hm
      exact hm
    refine ⟨PrefMap.eq_false_of_seq _ _ r hmk ?_, PrefMap.eq_false_of_seq _ _ r hkey ?_⟩
    · rw [hms, hseq]; simp [prefSeqEq, hp]
    · rw [hms, hseq]
      have hp2 : Double.eq r.preference p2 = false := by rw [Double.eq_comm]; exact hp
      simp [prefSeqEq, hp2]
  · intro m k i x y hk hx hy hne
    apply PrefMap.eq_false_of_seq _ _ k hk
    cases hq : prefSeqEq (m.seq k)
        (((ExchangeContext.fresh.publish pubs).Prefs r.requester).seq k) with
    | false => rfl
    | true =>
      have := (prefSeqEq_getElem? _ _ hq i x y hx hy).2
      rw [hne] at this
      cases this

theorem Prefs_single_bid_witness :
    ((ExchangeContext.fresh.publish addBid1).Prefs req1.requester).get? req1
        = some [(bid1, req1.preference)]
      ∧ PrefMap.eq obsScaled ((ExchangeContext.fresh.publish addBid1).Prefs req1.requester)
          = false :=
  ⟨(Prefs_single_bid addBid1 req1 bid1 (by decide) (by decide)).1,
   ((Prefs_single_bid addBid1 req1 bid1 (by decide) (by decide)).2.2.1 obsScaled
      0x3FA999999999999A (by decide) (by decide)).1⟩

/-- C15: after any publications into a fresh context, `RequestsForCommod(c)` is the
empty sequence for every commodity `c` no published request has, and
`BidsForRequest(r)` is the empty sequence for every request `r` no published bid
answers; both are plain values, no error is involved.  A fresh context has no
requests. -/
theorem empty_queries (pubs : List Publication) :
    (∀ c, (∀ r ∈ requestsOf (requestPortfoliosOf pubs), r.commodity ≠ c) →
        (ExchangeContext.fresh.publish pubs).RequestsForCommod c = [])
      ∧ (∀ r, (∀ b ∈ bidsOf (bidPortfoliosOf pubs), b.request ≠ r) →
        (ExchangeContext.fresh.publish pubs).BidsForRequest r = [])
      ∧ ExchangeContext.fresh.requests = []
      ∧ (∀ c, ExchangeContext.fresh.RequestsForCommod c = [])
      ∧ ∀ r, ExchangeContext.fresh.BidsForRequest r = [] := by
  obtain ⟨_, _, h3, h4, _⟩ := ExchangeContext.Extends_fresh pubs
  refine ⟨?_, ?_, rfl, fun _ => rfl, fun _ => rfl⟩
  · intro c hc
    rw [h3 c, List.filter_eq_nil_iff]
    intro r hr
    simpa using hc r hr
  · intro r hb
    rw [h4 r, List.filter_eq_nil_iff]
    intro b hbm
    simpa using hb b hbm

theorem empty_queries_witness :
    (ExchangeContext.fresh.publish addBid1).RequestsForCommod "commod2" = []
      ∧ (ExchangeContext.fresh.publish addBid1).BidsForRequest req2 = [] :=
  ⟨(empty_queries addBid1).1 "commod2" (by decide),
   (empty_queries addBid1).2.1 req2 (by decide)⟩

/-- C16: after any publications into a fresh context, `requesters()` is the set of the
requesters of the published requests and `bidders()` is the set of the bidders of the
published bids.  Two request portfolios that are not empty, of agents `a1` and `a2`,
give the set of `a1` and `a2`: two elements when the agents differ, one when they are the
same agent; likewise for two bid portfolios. -/
theorem requesters_bidders_sets (pubs : List Publication) :
    (ExchangeContext.fresh.publish pubs).requesters
        = ((requestsOf (requestPortfoliosOf pubs)).map (fun r => r.requester)).toFinset
      ∧ (ExchangeContext.fresh.publish pubs).bidders
        = ((bidsOf (bidPortfoliosOf pubs)).map (fun b => b.bidder)).toFinset
      ∧ (∀ a, a ∈ (ExchangeContext.fresh.publish pubs).requesters
          ↔ ∃ r ∈ requestsOf (requestPortfoliosOf pubs), r.requester = a)
      ∧ (∀ a, a ∈ (ExchangeContext.fresh.publish pubs).bidders
          ↔ ∃ b ∈ bidsOf (bidPortfoliosOf pubs), b.bidder = a)
      ∧ (∀ (p1 p2 : RequestPortfolio) (a1 a2 : Nat),
          p1.requests ≠ [] → p2.requests ≠ [] →
          (∀ r ∈ p1.requests, r.requester = a1) → (∀ r ∈ p2.requests, r.requester = a2) →
          (ExchangeContext.fresh.publish
              [Publication.Requests p1, Publication.Requests p2]).requesters = {a1, a2}
            ∧ (a1 ≠ a2 → (ExchangeContext.fresh.publish
                [Publication.Requests p1, Publication.Requests p2]).requesters.card = 2)
            ∧ (a1 = a2 → (ExchangeContext.fresh.publish
                [Publication.Requests p1, Publication.Requests p2]).requesters.card = 1))
      ∧ ∀ (p1 p2 : BidPortfolio) (a1 a2 : Nat),
          p1.bids ≠ [] → p2.bids ≠ [] →
          (∀ b ∈ p1.bids, b.bidder = a1) → (∀ b ∈ p2.bids, b.bidder = a2) →
          (ExchangeContext.fresh.publish
              [Publication.Bids p1, Publication.Bids p2]).bidders = {a1, a2}
            ∧ (a1 ≠ a2 → (ExchangeContext.fresh.publish
                [Publication.Bids p1, Publication.Bids p2]).bidders.card = 2)
            ∧ (a1 = a2 → (ExchangeContext.fresh.publish
                [Publication.Bids p1, Publication.Bids p2]).bidders.card = 1) := by
  obtain ⟨_, _, _, _, h5, h6⟩ := ExchangeContext.Extends_fresh pubs
  refine ⟨h5, h6, ?_, ?_, ?_, ?_⟩
  · intro a; rw [h5]; simp
  · intro a; rw [h6]; simp
  · intro p1 p2 a1 a2 n1 n2 o1 o2
    obtain ⟨_, _, _, _, g5, _⟩ := ExchangeContext.Extends_fresh
      [Publication.Requests p1, Publication.Requests p2]
    have e : (ExchangeContext.fresh.publish
        [Publication.Requests p1, Publication.Requests p2]).requesters = {a1, a2} := by
      rw [g5]
      ext x
      simp only [requestPortfoliosOf, requestsOf, List.append_nil, List.map_append,
        List.toFinset_append, Finset.mem_union, List.mem_toFinset, List.mem_map,
        Finset.mem_insert, Finset.mem_singleton]
      constructor
      · rintro (⟨r, hr, rfl⟩ | ⟨r, hr, rfl⟩)
        · left; exact o1 r hr
        · right; exact o2 r hr
      · rintro (rfl | rfl)
        · obtain ⟨r, hr⟩ := List.exists_mem_of_ne_nil _ n1
          exact Or.inl ⟨r, hr, o1 r hr⟩
        · obtain ⟨r, hr⟩ := List.exists_mem_of_ne_nil _ n2
          exact Or.inr ⟨r, hr, o2 r hr⟩
    refine ⟨e, ?_, ?_⟩
    · intro hne; rw [e]; exact Finset.card_pair hne
    · intro heq; rw [e, heq]; simp
  · intro p1 p2 a1 a2 n1 n2 o1 o2
    obtain ⟨_, _, _, _, _, g6⟩ := ExchangeContext.Extends_fresh
      [Publication.Bids p1, Publication.Bids p2]
    have e : (ExchangeContext.fresh.publish
        [Publication.Bids p1, Publication.Bids p2]).bidders = {a1, a2} := by
      rw [g6]
      ext x
      simp only [bidPortfoliosOf, bidsOf, List.append_nil, List.map_append,
        List.toFinset_append, Finset.mem_union, List.mem_toFinset, List.mem_map,
        Finset.mem_insert, Finset.mem_singleton]
      constructor
      · rintro (⟨r, hr, rfl⟩ | ⟨r, hr, rfl⟩)
        · left; exact o1 r hr
        · right; exact o2 r hr
      · rintro (rfl | rfl)
        · obtain ⟨r, hr⟩ := List.exists_mem_of_ne_nil _ n1
          exact Or.inl ⟨r, hr, o1 r hr⟩
        · obtain ⟨r, hr⟩ := List.exists_mem_of_ne_nil _ n2
          exact Or.inr ⟨r, hr, o2 r hr⟩
    refine ⟨e, ?_, ?_⟩
    · intro hne; rw [e]; exact Finset.card_pair hne
    · intro heq; rw [e, heq]; simp

theorem requesters_bidders_sets_witness :
    (ExchangeContext.fresh.publish
        [Publication.Requests { addr := 21, requests := [req1] },
         Publication.Requests { addr := 22, requests := [req2] }]).requesters.card = 2
      ∧ (ExchangeContext.fresh.publish
        [Publication.Bids { addr := 31, bids := [bid1] },
         Publication.Bids { addr := 32, bids := [bid3] }]).bidders.card = 2 :=
  ⟨((requesters_bidders_sets []).2.2.2.2.1 { addr := 21, requests := [req1] }
      { addr := 22, requests := [req2] } 1 2 (by decide) (by decide) (by decide) (by decide)).2.1
      (by decide),
   ((requesters_bidders_sets []).2.2.2.2.2 { addr := 31, bids := [bid1] }
      { addr := 32, bids := [bid3] } 1 2 (by decide) (by decide) (by decide) (by decide)).2.1
      (by decide)⟩

end cyclus
